import Mathlib

/-!
A shallow embedding of the CHIP-8 emulator core from `src/chip8.c`
(`queso-fuego/chip8_emulator_c`), together with theorems checking the
natural-language specification against it.

Modelling conventions:
* Machine integers are `Nat` with explicit reductions at the width points
  where the C types enforce them (`uint8_t` registers and RAM bytes are
  reduced `% 256` on every read/write, `uint16_t` PC/I values `% 65536`
  on every write).
* The C arrays (`ram[4096]`, `display[64*32]`, `V[16]`, `keypad[16]`,
  `stack[12]`) become `List`s; reads use `List.getD` and writes `List.set`.
  RAM addresses wrap `% 4096`: the C source indexes `ram` without a bounds
  check (undefined behaviour past 4095), and the spec mandates that
  out-of-range addresses wrap modulo the memory size.
* The subroutine stack is a LIFO list (head = top).  The C source performs
  raw pointer pushes/pops with no depth check, which is undefined behaviour
  on an empty pop or a 13th push; modelled from the spec: those two cases
  become the deterministic `RuntimeFault`s the spec mandates
  (StackUnderflow / StackOverflow), every other branch follows the source.
* `rand()` in `CXNN` is modelled by an injected stream of pre-drawn bytes
  (`rand_seq`), consumed one value per `CXNN`, matching the requirement of
  the spec that the random source be injectable.
* The function-local `static` variables of the `FX0A` handler
  (`any_key_pressed`, `key`) become machine-state fields: the program has a
  single machine instance, for which this is observationally identical.
* Host-rendering-only fields of `chip8_t` (`pixel_color`, `rom_name`,
  `state`) and the SDL calls in `update_timers` are out of the modelled
  core and omitted.
-/

/-- CHIP-8 extensions/quirks support (`extension_t` in the source):
CHIP8 = Legacy, SUPERCHIP = Modern, XOCHIP = Extended. -/
inductive extension_t where
  | CHIP8
  | SUPERCHIP
  | XOCHIP
deriving DecidableEq, Repr

/-- The configuration fields of `config_t` read by the emulation core
(window size in CHIP-8 pixels and the active quirk mode). -/
structure config_t where
  window_width : Nat
  window_height : Nat
  current_extension : extension_t
deriving DecidableEq, Repr

/-- Decoded instruction fields (`instruction_t` in the source). -/
structure instruction_t where
  opcode : Nat
  NNN : Nat
  NN : Nat
  N : Nat
  X : Nat
  Y : Nat
deriving DecidableEq, Repr

/-- The machine state (`chip8_t` in the source), restricted to the fields
the emulation core reads or writes.  `key` and `any_key_pressed` model the
two function-local statics of the `FX0A` handler; `rand_seq` injects the
stream of `rand()` draws. -/
structure chip8_t where
  ram : List Nat
  display : List Bool
  stack : List Nat
  V : List Nat
  I : Nat
  PC : Nat
  delay_timer : Nat
  sound_timer : Nat
  keypad : List Bool
  inst : instruction_t
  draw : Bool
  any_key_pressed : Bool
  key : Nat
  rand_seq : List Nat
deriving DecidableEq, Repr

/-- Modelled from the spec: the deterministic faults mandated for the stack
operations the source leaves undefined (raw pointer over/underflow on
`chip8->stack`). -/
inductive RuntimeFault where
  | StackOverflow
  | StackUnderflow
deriving DecidableEq, Repr

/-- Read a RAM byte: `chip8->ram[a]`.  Addresses wrap `% 4096` (the
out-of-range policy of the spec; in-bounds accesses match the source
exactly), values are bytes (`uint8_t`). -/
def mem_read (s : chip8_t) (a : Nat) : Nat :=
  s.ram.getD (a % 4096) 0 % 256

/-- Write a RAM byte: `chip8->ram[a] = v`. -/
def mem_write (s : chip8_t) (a v : Nat) : chip8_t :=
  { s with ram := s.ram.set (a % 4096) (v % 256) }

/-- Read a data register: `chip8->V[i]` (a `uint8_t`). -/
def vreg (s : chip8_t) (i : Nat) : Nat :=
  s.V.getD i 0 % 256

/-- Write a data register: `chip8->V[i] = v` (truncated to `uint8_t`). -/
def vset (s : chip8_t) (i v : Nat) : chip8_t :=
  { s with V := s.V.set i (v % 256) }

/-- Byte (`uint8_t`) subtraction `a - b`. -/
def sub8 (a b : Nat) : Nat :=
  (a + 256 - b % 256) % 256

/-- One row of the `DXYN` sprite draw: the inner `for (j = 7; j >= 0; j--)`
loop.  Processes bit `j` of `sprite` at column `x` of row `y`, then stops
when the incremented X coordinate reaches the right edge (`w`), mirroring
`if (++X_coord >= config.window_width) break;`.  The collision flag is
threaded through `vf` (the only writes of the source to `V[0xF]` inside the
loop set it to 1, so accumulating a flag and storing it once at the end is
observationally identical). -/
def draw_row (w sprite : Nat) : Nat → Nat → Nat → List Bool → Bool → List Bool × Bool
  | j, x, y, disp, vf =>
    let idx := y * w + x
    let pix := disp.getD idx false
    let bit := Nat.testBit sprite j
    let vf' := vf || (bit && pix)
    let disp' := disp.set idx (xor pix bit)
    if x + 1 ≥ w then (disp', vf')
    else
      match j with
      | 0 => (disp', vf')
      | j' + 1 => draw_row w sprite j' (x + 1) y disp' vf'

/-- The outer `for (i = 0; i < chip8->inst.N; i++)` loop of `DXYN`: draws
`n` remaining sprite rows, reading row `i` from `ram[I + i]`, resetting X
to `x0` for each row, and stopping when the incremented Y coordinate
reaches the bottom edge (`h`), mirroring
`if (++Y_coord >= config.window_height) break;`. -/
def draw_rows (w h : Nat) (ram : List Nat) (I : Nat) :
    Nat → Nat → Nat → Nat → List Bool → Bool → List Bool × Bool
  | 0, _, _, _, disp, vf => (disp, vf)
  | n + 1, i, y, x0, disp, vf =>
    let sprite := ram.getD ((I + i) % 4096) 0 % 256
    let res := draw_row w sprite 7 x0 y disp vf
    if y + 1 ≥ h then res
    else draw_rows w h ram I n (i + 1) (y + 1) x0 res.1 res.2

/-- The `FX55` register-dump loop (`for (i = 0; i <= X; i++)`), with `k`
registers left to dump starting at register index `i`.  In CHIP8/Legacy
mode each store is `ram[I++] = V[i]`; otherwise `ram[I + i] = V[i]` with
`I` untouched. -/
def regs_dump (cfg : config_t) : Nat → Nat → chip8_t → chip8_t
  | 0, _, s => s
  | k + 1, i, s =>
    let s' :=
      if cfg.current_extension = extension_t.CHIP8 then
        let s1 := mem_write s s.I (vreg s i)
        { s1 with I := (s1.I + 1) % 65536 }
      else
        mem_write s (s.I + i) (vreg s i)
    regs_dump cfg k (i + 1) s'

/-- The `FX65` register-load loop: `V[i] = ram[I++]` in CHIP8/Legacy mode,
`V[i] = ram[I + i]` otherwise. -/
def regs_load (cfg : config_t) : Nat → Nat → chip8_t → chip8_t
  | 0, _, s => s
  | k + 1, i, s =>
    let s' :=
      if cfg.current_extension = extension_t.CHIP8 then
        let s1 := vset s i (mem_read s s.I)
        { s1 with I := (s1.I + 1) % 65536 }
      else
        vset s i (mem_read s (s.I + i))
    regs_load cfg k (i + 1) s'

/-- Decode a 16-bit opcode into its fields, as `emulate_instruction` fills
out `chip8->inst` (`NNN = op & 0x0FFF`, `NN = op & 0xFF`, `N = op & 0xF`,
`X = (op >> 8) & 0xF`, `Y = (op >> 4) & 0xF`). -/
def decode (op : Nat) : instruction_t :=
  ⟨op, op % 4096, op % 256, op % 16, op / 256 % 16, op / 16 % 16⟩

/-- Program-counter (`uint16_t`) decrement by 2 (`chip8->PC -= 2`). -/
def pc_back2 (pc : Nat) : Nat :=
  (pc + 65534) % 65536

/-- The opcode dispatch of `emulate_instruction`: the body of the
`switch ((chip8->inst.opcode >> 12) & 0x0F)`, applied to a state whose
`inst` fields are already filled in and whose PC has already been
pre-incremented by 2 after the fetch. -/
def exec (cfg : config_t) (s : chip8_t) : Except RuntimeFault chip8_t :=
  let top := s.inst.opcode / 4096 % 16
  if top = 0x0 then
    if s.inst.NN = 0xE0 then
      -- 0x00E0: clear the screen, mark for redraw
      Except.ok { s with display := List.replicate (64 * 32) false, draw := true }
    else if s.inst.NN = 0xEE then
      -- 0x00EE: return from subroutine (pop stack into PC)
      match s.stack with
      | [] => Except.error RuntimeFault.StackUnderflow
      | a :: rest => Except.ok { s with PC := a, stack := rest }
    else
      Except.ok s
  else if top = 0x1 then
    -- 0x1NNN: jump
    Except.ok { s with PC := s.inst.NNN }
  else if top = 0x2 then
    -- 0x2NNN: call subroutine (push current PC, jump to NNN)
    if s.stack.length ≥ 12 then Except.error RuntimeFault.StackOverflow
    else Except.ok { s with stack := s.PC :: s.stack, PC := s.inst.NNN }
  else if top = 0x3 then
    -- 0x3XNN: skip next instruction if VX == NN
    Except.ok (if vreg s s.inst.X = s.inst.NN then { s with PC := (s.PC + 2) % 65536 } else s)
  else if top = 0x4 then
    -- 0x4XNN: skip next instruction if VX != NN
    Except.ok (if vreg s s.inst.X ≠ s.inst.NN then { s with PC := (s.PC + 2) % 65536 } else s)
  else if top = 0x5 then
    -- 0x5XY0: skip next instruction if VX == VY (low nibble must be 0)
    if s.inst.N ≠ 0 then Except.ok s
    else
      Except.ok (if vreg s s.inst.X = vreg s s.inst.Y then { s with PC := (s.PC + 2) % 65536 } else s)
  else if top = 0x6 then
    -- 0x6XNN: VX = NN
    Except.ok (vset s s.inst.X s.inst.NN)
  else if top = 0x7 then
    -- 0x7XNN: VX += NN (no carry flag)
    Except.ok (vset s s.inst.X (vreg s s.inst.X + s.inst.NN))
  else if top = 0x8 then
    if s.inst.N = 0 then
      -- 0x8XY0: VX = VY
      Except.ok (vset s s.inst.X (vreg s s.inst.Y))
    else if s.inst.N = 1 then
      -- 0x8XY1: VX |= VY (CHIP8 quirk: also reset VF)
      let s1 := vset s s.inst.X (Nat.lor (vreg s s.inst.X) (vreg s s.inst.Y))
      Except.ok (if cfg.current_extension = extension_t.CHIP8 then vset s1 0xF 0 else s1)
    else if s.inst.N = 2 then
      -- 0x8XY2: VX &= VY (CHIP8 quirk: also reset VF)
      let s1 := vset s s.inst.X (Nat.land (vreg s s.inst.X) (vreg s s.inst.Y))
      Except.ok (if cfg.current_extension = extension_t.CHIP8 then vset s1 0xF 0 else s1)
    else if s.inst.N = 3 then
      -- 0x8XY3: VX ^= VY (CHIP8 quirk: also reset VF)
      let s1 := vset s s.inst.X (Nat.xor (vreg s s.inst.X) (vreg s s.inst.Y))
      Except.ok (if cfg.current_extension = extension_t.CHIP8 then vset s1 0xF 0 else s1)
    else if s.inst.N = 4 then
      -- 0x8XY4: VX += VY, VF = carry (from pre-operation operands)
      let carry := if vreg s s.inst.X + vreg s s.inst.Y > 255 then 1 else 0
      Except.ok (vset (vset s s.inst.X (vreg s s.inst.X + vreg s s.inst.Y)) 0xF carry)
    else if s.inst.N = 5 then
      -- 0x8XY5: VX -= VY, VF = 1 iff no borrow (from pre-operation operands)
      let carry := if vreg s s.inst.Y ≤ vreg s s.inst.X then 1 else 0
      Except.ok (vset (vset s s.inst.X (sub8 (vreg s s.inst.X) (vreg s s.inst.Y))) 0xF carry)
    else if s.inst.N = 6 then
      -- 0x8XY6: shift right; CHIP8 uses VY as source, others use VX
      if cfg.current_extension = extension_t.CHIP8 then
        let carry := vreg s s.inst.Y % 2
        Except.ok (vset (vset s s.inst.X (vreg s s.inst.Y / 2)) 0xF carry)
      else
        let carry := vreg s s.inst.X % 2
        Except.ok (vset (vset s s.inst.X (vreg s s.inst.X / 2)) 0xF carry)
    else if s.inst.N = 7 then
      -- 0x8XY7: VX = VY - VX, VF = 1 iff no borrow
      let carry := if vreg s s.inst.X ≤ vreg s s.inst.Y then 1 else 0
      Except.ok (vset (vset s s.inst.X (sub8 (vreg s s.inst.Y) (vreg s s.inst.X))) 0xF carry)
    else if s.inst.N = 0xE then
      -- 0x8XYE: shift left; CHIP8 uses VY as source, others use VX
      if cfg.current_extension = extension_t.CHIP8 then
        let carry := vreg s s.inst.Y / 128
        Except.ok (vset (vset s s.inst.X (vreg s s.inst.Y * 2)) 0xF carry)
      else
        let carry := vreg s s.inst.X / 128
        Except.ok (vset (vset s s.inst.X (vreg s s.inst.X * 2)) 0xF carry)
    else
      Except.ok s
  else if top = 0x9 then
    -- 0x9XY_: skip next instruction if VX != VY (source never checks N)
    Except.ok (if vreg s s.inst.X ≠ vreg s s.inst.Y then { s with PC := (s.PC + 2) % 65536 } else s)
  else if top = 0xA then
    -- 0xANNN: I = NNN
    Except.ok { s with I := s.inst.NNN }
  else if top = 0xB then
    -- 0xBNNN: PC = V0 + NNN
    Except.ok { s with PC := (vreg s 0 + s.inst.NNN) % 65536 }
  else if top = 0xC then
    -- 0xCXNN: VX = (rand() % 256) & NN, with rand() as an injected stream
    Except.ok { vset s s.inst.X (Nat.land (s.rand_seq.getD 0 0 % 256) s.inst.NN) with
                rand_seq := s.rand_seq.tail }
  else if top = 0xD then
    -- 0xDXYN: sprite draw (see draw_row / draw_rows)
    let x0 := vreg s s.inst.X % cfg.window_width
    let y0 := vreg s s.inst.Y % cfg.window_height
    let res := draw_rows cfg.window_width cfg.window_height s.ram s.I s.inst.N 0 y0 x0
                 s.display false
    Except.ok { vset s 0xF (if res.2 then 1 else 0) with display := res.1, draw := true }
  else if top = 0xE then
    if s.inst.NN = 0x9E then
      -- 0xEX9E: skip if key VX pressed
      Except.ok (if s.keypad.getD (vreg s s.inst.X) false then
                   { s with PC := (s.PC + 2) % 65536 } else s)
    else if s.inst.NN = 0xA1 then
      -- 0xEXA1: skip if key VX not pressed
      Except.ok (if s.keypad.getD (vreg s s.inst.X) false then s
                 else { s with PC := (s.PC + 2) % 65536 })
    else
      Except.ok s
  else if top = 0xF then
    if s.inst.NN = 0x0A then
      -- 0xFX0A: blocking key read; `key`/`any_key_pressed` model the
      -- function-local statics of the handler
      let scan :=
        if s.key = 0xFF then
          match (List.range 16).find? (fun i => s.keypad.getD i false) with
          | some i => (i, true)
          | none => (s.key, s.any_key_pressed)
        else (s.key, s.any_key_pressed)
      let s1 := { s with key := scan.1, any_key_pressed := scan.2 }
      if scan.2 = false then
        Except.ok { s1 with PC := pc_back2 s1.PC }
      else if s1.keypad.getD scan.1 false then
        Except.ok { s1 with PC := pc_back2 s1.PC }
      else
        Except.ok { vset s1 s.inst.X scan.1 with key := 0xFF, any_key_pressed := false }
    else if s.inst.NN = 0x1E then
      -- 0xFX1E: I += VX
      Except.ok { s with I := (s.I + vreg s s.inst.X) % 65536 }
    else if s.inst.NN = 0x07 then
      -- 0xFX07: VX = delay timer
      Except.ok (vset s s.inst.X s.delay_timer)
    else if s.inst.NN = 0x15 then
      -- 0xFX15: delay timer = VX
      Except.ok { s with delay_timer := vreg s s.inst.X }
    else if s.inst.NN = 0x18 then
      -- 0xFX18: sound timer = VX
      Except.ok { s with sound_timer := vreg s s.inst.X }
    else if s.inst.NN = 0x29 then
      -- 0xFX29: I = VX * 5 (font glyph base)
      Except.ok { s with I := vreg s s.inst.X * 5 }
    else if s.inst.NN = 0x33 then
      -- 0xFX33: BCD of VX at I, I+1, I+2
      let bcd := vreg s s.inst.X
      let s1 := mem_write s (s.I + 2) (bcd % 10)
      let s2 := mem_write s1 (s.I + 1) (bcd / 10 % 10)
      Except.ok (mem_write s2 s.I (bcd / 10 / 10))
    else if s.inst.NN = 0x55 then
      -- 0xFX55: dump V0..VX to memory at I
      Except.ok (regs_dump cfg (s.inst.X + 1) 0 s)
    else if s.inst.NN = 0x65 then
      -- 0xFX65: load V0..VX from memory at I
      Except.ok (regs_load cfg (s.inst.X + 1) 0 s)
    else
      Except.ok s
  else
    Except.ok s

/-- Apply one decoded opcode: fill `chip8->inst`, pre-increment PC by 2 as
`emulate_instruction` does right after the fetch, then dispatch. -/
def apply_opcode (cfg : config_t) (op : Nat) (s : chip8_t) : Except RuntimeFault chip8_t :=
  exec cfg { s with inst := decode op, PC := (s.PC + 2) % 65536 }

/-- Embedding of `emulate_instruction`: fetch the big-endian opcode
`(ram[PC] << 8) | ram[PC+1]`, pre-increment PC, decode, dispatch. -/
def emulate_instruction (cfg : config_t) (s : chip8_t) : Except RuntimeFault chip8_t :=
  apply_opcode cfg (mem_read s s.PC * 256 + mem_read s (s.PC + 1)) s

/-- Embedding of `update_timers`, minus its SDL audio pause/unpause calls:
each timer is
decremented exactly when it is positive. -/
def update_timers (s : chip8_t) : chip8_t :=
  { s with
    delay_timer := if 0 < s.delay_timer then s.delay_timer - 1 else s.delay_timer,
    sound_timer := if 0 < s.sound_timer then s.sound_timer - 1 else s.sound_timer }

/-- The per-frame instruction batch of the 60 Hz loop of `main`: run up to `n`
instructions; in CHIP8/Legacy mode stop the batch as soon as the executed
instruction was a draw (`chip8.inst.opcode >> 12 == 0xD`).  Also returns
the list of executed opcodes, in order. -/
def run_frame_insts (cfg : config_t) :
    Nat → chip8_t → Except RuntimeFault (chip8_t × List Nat)
  | 0, s => Except.ok (s, [])
  | n + 1, s =>
    match emulate_instruction cfg s with
    | Except.error e => Except.error e
    | Except.ok s' =>
      if cfg.current_extension = extension_t.CHIP8 ∧ s'.inst.opcode / 4096 = 0xD then
        Except.ok (s', [s'.inst.opcode])
      else
        match run_frame_insts cfg n s' with
        | Except.error e => Except.error e
        | Except.ok (s'', ops) => Except.ok (s'', s'.inst.opcode :: ops)

/-- One 60 Hz frame: the instruction batch followed by the timer update. -/
def tick_frame (cfg : config_t) (n : Nat) (s : chip8_t) :
    Except RuntimeFault (chip8_t × List Nat) :=
  match run_frame_insts cfg n s with
  | Except.error e => Except.error e
  | Except.ok (s', ops) => Except.ok (update_timers s', ops)

/-- Modern-mode configuration (SUPERCHIP), standard 64 by 32 display. -/
def cfg_modern : config_t := ⟨64, 32, extension_t.SUPERCHIP⟩

def cfg_legacy : config_t := ⟨64, 32, extension_t.CHIP8⟩

def inst_zero : instruction_t := ⟨0, 0, 0, 0, 0, 0⟩

/-- A concrete baseline machine state used by the witnesses. -/
def st_base : chip8_t :=
  { ram := [], display := [], stack := [], V := List.replicate 16 0,
    I := 0, PC := 0x200, delay_timer := 0, sound_timer := 0,
    keypad := List.replicate 16 false, inst := inst_zero, draw := false,
    any_key_pressed := false, key := 0xFF, rand_seq := [] }

def st_shiftL : chip8_t := { st_base with V := (List.replicate 16 0).set 1 0x03 }

def st_shiftM : chip8_t := { st_base with V := (List.replicate 16 0).set 0 0x03 }

def st_rt : chip8_t :=
  { st_base with
    ram := List.replicate 4096 0,
    V := (((List.replicate 16 0).set 0 7).set 1 9).set 2 11,
    I := 0x300 }

def st_tick : chip8_t :=
  { st_base with
    ram := [0x60, 0x05, 0x61, 0x07],
    PC := 0,
    delay_timer := 3,
    sound_timer := 0 }

def st_tick_end : chip8_t :=
  { st_tick with
    PC := 4,
    V := ((List.replicate 16 0).set 0 5).set 1 7,
    inst := decode 0x6107 }

def st_draw : chip8_t :=
  { st_base with
    ram := [0xF0, 0x90],
    display := List.replicate 2048 false,
    I := 0 }

def st_keyrel : chip8_t := { st_base with key := 5, any_key_pressed := true }

deriving instance DecidableEq for Except

/-! ## General helper lemmas -/

theorem getD_set_self {α : Type} (l : List α) (i : Nat) (a d : α)
    (h : i < l.length) : ((l.set i a)[i]?).getD d = a := by
  rw [List.getElem?_set_eq_of_lt _ h]; rfl

theorem getD_set_ne {α : Type} (l : List α) {i j : Nat} (a d : α)
    (h : i ≠ j) : ((l.set i a)[j]?).getD d = (l[j]?).getD d := by
  rw [List.getElem?_set_ne h]

@[simp] theorem vreg_def (s : chip8_t) (i : Nat) : vreg s i = s.V.getD i 0 % 256 := rfl

@[simp] theorem vset_V (s : chip8_t) (i v : Nat) : (vset s i v).V = s.V.set i (v % 256) := rfl

@[simp] theorem vset_ram (s : chip8_t) (i v : Nat) : (vset s i v).ram = s.ram := rfl

@[simp] theorem vset_display (s : chip8_t) (i v : Nat) : (vset s i v).display = s.display := rfl

@[simp] theorem vset_stack (s : chip8_t) (i v : Nat) : (vset s i v).stack = s.stack := rfl

@[simp] theorem vset_I (s : chip8_t) (i v : Nat) : (vset s i v).I = s.I := rfl

@[simp] theorem vset_PC (s : chip8_t) (i v : Nat) : (vset s i v).PC = s.PC := rfl

@[simp] theorem vset_delay (s : chip8_t) (i v : Nat) : (vset s i v).delay_timer = s.delay_timer := rfl

@[simp] theorem vset_sound (s : chip8_t) (i v : Nat) : (vset s i v).sound_timer = s.sound_timer := rfl

@[simp] theorem vset_keypad (s : chip8_t) (i v : Nat) : (vset s i v).keypad = s.keypad := rfl

@[simp] theorem vset_inst (s : chip8_t) (i v : Nat) : (vset s i v).inst = s.inst := rfl

@[simp] theorem vset_draw (s : chip8_t) (i v : Nat) : (vset s i v).draw = s.draw := rfl

@[simp] theorem vset_key (s : chip8_t) (i v : Nat) : (vset s i v).key = s.key := rfl

@[simp] theorem vset_any (s : chip8_t) (i v : Nat) :
    (vset s i v).any_key_pressed = s.any_key_pressed := rfl

@[simp] theorem vset_rand (s : chip8_t) (i v : Nat) : (vset s i v).rand_seq = s.rand_seq := rfl

@[simp] theorem mem_write_ram (s : chip8_t) (a v : Nat) :
    (mem_write s a v).ram = s.ram.set (a % 4096) (v % 256) := rfl

@[simp] theorem mem_write_V (s : chip8_t) (a v : Nat) : (mem_write s a v).V = s.V := rfl

@[simp] theorem mem_write_I (s : chip8_t) (a v : Nat) : (mem_write s a v).I = s.I := rfl

@[simp] theorem mem_write_PC (s : chip8_t) (a v : Nat) : (mem_write s a v).PC = s.PC := rfl

@[simp] theorem mem_write_display (s : chip8_t) (a v : Nat) :
    (mem_write s a v).display = s.display := rfl

@[simp] theorem mem_write_stack (s : chip8_t) (a v : Nat) :
    (mem_write s a v).stack = s.stack := rfl

@[simp] theorem mem_write_delay (s : chip8_t) (a v : Nat) :
    (mem_write s a v).delay_timer = s.delay_timer := rfl

@[simp] theorem mem_write_sound (s : chip8_t) (a v : Nat) :
    (mem_write s a v).sound_timer = s.sound_timer := rfl

/-! ## C3: 8XY4 add with carry -/

/-- C3: for every pre-state and mode, `8XY4` sets VF to 1 exactly when the
unmodded sum of the pre-operation operand values exceeds 255 (operands
captured before VX is overwritten), and stores `(VX+VY) mod 256` into VX
(visible in the final state whenever X ≠ 0xF, since VF is written last). -/
theorem opcode_8XY4_add_carry (cfg : config_t) (op : Nat) (s : chip8_t)
    (htop : op / 4096 % 16 = 0x8) (hN : op % 16 = 0x4) (hV : s.V.length = 16) :
    ∃ s', apply_opcode cfg op s = Except.ok s' ∧
      vreg s' 0xF = (if 255 < vreg s (op / 256 % 16) + vreg s (op / 16 % 16) then 1 else 0) ∧
      (op / 256 % 16 ≠ 0xF →
        vreg s' (op / 256 % 16) = (vreg s (op / 256 % 16) + vreg s (op / 16 % 16)) % 256) := by
  have hX : op / 256 % 16 < 16 := Nat.mod_lt _ (by norm_num)
  unfold apply_opcode exec decode
  simp only [htop, hN]
  norm_num
  constructor
  · rw [getD_set_self _ _ _ _ (by simp [hV])]
    split_ifs <;> rfl
  · intro hne
    rw [getD_set_ne _ _ _ (by omega), getD_set_self _ _ _ _ (by simpa [hV] using hX)]
    omega

theorem opcode_8XY4_add_carry_witness :
    (0x8014 / 4096 % 16 = 0x8) ∧ (0x8014 % 16 = 0x4) ∧
    ({ st_base with V := (List.replicate 16 0).set 0 0xFF |>.set 1 0x01 } : chip8_t).V.length = 16 ∧
    (∃ s', apply_opcode cfg_modern 0x8014
        { st_base with V := (List.replicate 16 0).set 0 0xFF |>.set 1 0x01 } = Except.ok s' ∧
      vreg s' 0xF = (if 255 <
          vreg { st_base with V := (List.replicate 16 0).set 0 0xFF |>.set 1 0x01 } (0x8014 / 256 % 16) +
          vreg { st_base with V := (List.replicate 16 0).set 0 0xFF |>.set 1 0x01 } (0x8014 / 16 % 16)
          then 1 else 0) ∧
      (0x8014 / 256 % 16 ≠ 0xF →
        vreg s' (0x8014 / 256 % 16) =
          (vreg { st_base with V := (List.replicate 16 0).set 0 0xFF |>.set 1 0x01 } (0x8014 / 256 % 16) +
           vreg { st_base with V := (List.replicate 16 0).set 0 0xFF |>.set 1 0x01 } (0x8014 / 16 % 16)) % 256)) :=
  ⟨by decide, by decide, by decide,
   opcode_8XY4_add_carry cfg_modern 0x8014 _ (by decide) (by decide) (by decide)⟩

/-! ## C4: 8XY5 subtract with no-borrow flag -/

theorem vreg_lt_256 (s : chip8_t) (i : Nat) : vreg s i < 256 :=
  Nat.mod_lt _ (by norm_num)

/-- C4: `8XY5` stores `(VX − VY) mod 256` into VX and sets VF to 1 exactly
when the pre-operation values satisfy VY ≤ VX (no borrow). -/
theorem opcode_8XY5_sub_borrow (cfg : config_t) (op : Nat) (s : chip8_t)
    (htop : op / 4096 % 16 = 0x8) (hN : op % 16 = 0x5) (hV : s.V.length = 16) :
    ∃ s', apply_opcode cfg op s = Except.ok s' ∧
      vreg s' 0xF = (if vreg s (op / 16 % 16) ≤ vreg s (op / 256 % 16) then 1 else 0) ∧
      (op / 256 % 16 ≠ 0xF →
        (vreg s' (op / 256 % 16) : Int) =
          ((vreg s (op / 256 % 16) : Int) - (vreg s (op / 16 % 16) : Int)) % 256) := by
  have hX : op / 256 % 16 < 16 := Nat.mod_lt _ (by norm_num)
  have hbX : s.V.getD (op / 256 % 16) 0 % 256 < 256 := Nat.mod_lt _ (by norm_num)
  have hbY : s.V.getD (op / 16 % 16) 0 % 256 < 256 := Nat.mod_lt _ (by norm_num)
  unfold apply_opcode exec decode sub8
  simp only [htop, hN]
  norm_num
  constructor
  · rw [getD_set_self _ _ _ _ (by simp [hV])]
    split_ifs <;> rfl
  · intro hne
    rw [getD_set_ne _ _ _ (by omega), getD_set_self _ _ _ _ (by simpa [hV] using hX)]
    simp only [List.getD_eq_getElem?_getD] at hbX hbY
    omega

theorem opcode_8XY5_sub_borrow_witness :
    (0x8015 / 4096 % 16 = 0x8) ∧ (0x8015 % 16 = 0x5) ∧
    ({ st_base with V := (List.replicate 16 0).set 0 0x01 |>.set 1 0x01 } : chip8_t).V.length = 16 ∧
    (∃ s', apply_opcode cfg_modern 0x8015
        { st_base with V := (List.replicate 16 0).set 0 0x01 |>.set 1 0x01 } = Except.ok s' ∧
      vreg s' 0xF = (if vreg { st_base with V := (List.replicate 16 0).set 0 0x01 |>.set 1 0x01 } (0x8015 / 16 % 16) ≤
          vreg { st_base with V := (List.replicate 16 0).set 0 0x01 |>.set 1 0x01 } (0x8015 / 256 % 16) then 1 else 0) ∧
      (0x8015 / 256 % 16 ≠ 0xF →
        (vreg s' (0x8015 / 256 % 16) : Int) =
          ((vreg { st_base with V := (List.replicate 16 0).set 0 0x01 |>.set 1 0x01 } (0x8015 / 256 % 16) : Int) -
           (vreg { st_base with V := (List.replicate 16 0).set 0 0x01 |>.set 1 0x01 } (0x8015 / 16 % 16) : Int)) % 256)) :=
  ⟨by decide, by decide, by decide,
   opcode_8XY5_sub_borrow cfg_modern 0x8015 _ (by decide) (by decide) (by decide)⟩

/-! ## C2: 8XY6 / 8XYE shifts -/

/-- C2: for the shift opcodes the flag VF receives the shifted-off bit of
the *source* operand (low bit for `8XY6`, high bit for `8XYE`); in
CHIP8/Legacy mode the source is VY and the result goes to VX, in
Modern/Extended modes source and destination are both VX.  (The result in
VX is visible in the final state whenever X ≠ 0xF, VF being written last.) -/
theorem opcode_shift_semantics (cfg : config_t) (op : Nat) (s : chip8_t)
    (htop : op / 4096 % 16 = 0x8) (hV : s.V.length = 16) :
    (op % 16 = 0x6 →
      ∃ s', apply_opcode cfg op s = Except.ok s' ∧
        (cfg.current_extension = extension_t.CHIP8 →
          vreg s' 0xF = vreg s (op / 16 % 16) % 2 ∧
          (op / 256 % 16 ≠ 0xF → vreg s' (op / 256 % 16) = vreg s (op / 16 % 16) / 2)) ∧
        (cfg.current_extension ≠ extension_t.CHIP8 →
          vreg s' 0xF = vreg s (op / 256 % 16) % 2 ∧
          (op / 256 % 16 ≠ 0xF → vreg s' (op / 256 % 16) = vreg s (op / 256 % 16) / 2))) ∧
    (op % 16 = 0xE →
      ∃ s', apply_opcode cfg op s = Except.ok s' ∧
        (cfg.current_extension = extension_t.CHIP8 →
          vreg s' 0xF = vreg s (op / 16 % 16) / 128 ∧
          (op / 256 % 16 ≠ 0xF →
            vreg s' (op / 256 % 16) = vreg s (op / 16 % 16) * 2 % 256)) ∧
        (cfg.current_extension ≠ extension_t.CHIP8 →
          vreg s' 0xF = vreg s (op / 256 % 16) / 128 ∧
          (op / 256 % 16 ≠ 0xF →
            vreg s' (op / 256 % 16) = vreg s (op / 256 % 16) * 2 % 256))) := by
  have hX : op / 256 % 16 < 16 := Nat.mod_lt _ (by norm_num)
  have hbX : s.V.getD (op / 256 % 16) 0 % 256 < 256 := Nat.mod_lt _ (by norm_num)
  have hbY : s.V.getD (op / 16 % 16) 0 % 256 < 256 := Nat.mod_lt _ (by norm_num)
  constructor
  · intro hN
    unfold apply_opcode exec decode
    simp only [htop, hN]
    norm_num
    by_cases hm : cfg.current_extension = extension_t.CHIP8 <;>
      simp only [hm, if_pos, if_neg, reduceIte] <;> norm_num
    · constructor
      · rw [getD_set_self _ _ _ _ (by simp [hV])]
        omega
      · intro hne
        rw [getD_set_ne _ _ _ (by omega), getD_set_self _ _ _ _ (by simpa [hV] using hX)]
        omega
    · constructor
      · rw [getD_set_self _ _ _ _ (by simp [hV])]
        omega
      · intro hne
        rw [getD_set_ne _ _ _ (by omega), getD_set_self _ _ _ _ (by simpa [hV] using hX)]
        omega
  · intro hN
    unfold apply_opcode exec decode
    simp only [htop, hN]
    norm_num
    by_cases hm : cfg.current_extension = extension_t.CHIP8 <;>
      simp only [hm, if_pos, if_neg, reduceIte] <;> norm_num
    · constructor
      · rw [getD_set_self _ _ _ _ (by simp [hV])]
        omega
      · intro hne
        rw [getD_set_ne _ _ _ (by omega), getD_set_self _ _ _ _ (by simpa [hV] using hX)]
        omega
    · constructor
      · rw [getD_set_self _ _ _ _ (by simp [hV])]
        omega
      · intro hne
        rw [getD_set_ne _ _ _ (by omega), getD_set_self _ _ _ _ (by simpa [hV] using hX)]
        omega

theorem opcode_shift_semantics_witness :
    (0x8016 / 4096 % 16 = 0x8) ∧ st_shiftL.V.length = 16 ∧ st_shiftM.V.length = 16 ∧
    (0x8016 % 16 = 0x6) ∧
    (∃ s', apply_opcode cfg_legacy 0x8016 st_shiftL = Except.ok s' ∧
      (cfg_legacy.current_extension = extension_t.CHIP8 →
        vreg s' 0xF = vreg st_shiftL (0x8016 / 16 % 16) % 2 ∧
        (0x8016 / 256 % 16 ≠ 0xF →
          vreg s' (0x8016 / 256 % 16) = vreg st_shiftL (0x8016 / 16 % 16) / 2)) ∧
      (cfg_legacy.current_extension ≠ extension_t.CHIP8 →
        vreg s' 0xF = vreg st_shiftL (0x8016 / 256 % 16) % 2 ∧
        (0x8016 / 256 % 16 ≠ 0xF →
          vreg s' (0x8016 / 256 % 16) = vreg st_shiftL (0x8016 / 256 % 16) / 2))) ∧
    (∃ s', apply_opcode cfg_modern 0x8016 st_shiftM = Except.ok s' ∧
      (cfg_modern.current_extension = extension_t.CHIP8 →
        vreg s' 0xF = vreg st_shiftM (0x8016 / 16 % 16) % 2 ∧
        (0x8016 / 256 % 16 ≠ 0xF →
          vreg s' (0x8016 / 256 % 16) = vreg st_shiftM (0x8016 / 16 % 16) / 2)) ∧
      (cfg_modern.current_extension ≠ extension_t.CHIP8 →
        vreg s' 0xF = vreg st_shiftM (0x8016 / 256 % 16) % 2 ∧
        (0x8016 / 256 % 16 ≠ 0xF →
          vreg s' (0x8016 / 256 % 16) = vreg st_shiftM (0x8016 / 256 % 16) / 2))) :=
  ⟨by decide, by decide, by decide, by decide,
   (opcode_shift_semantics cfg_legacy 0x8016 st_shiftL (by decide) (by decide)).1 (by decide),
   (opcode_shift_semantics cfg_modern 0x8016 st_shiftM (by decide) (by decide)).1 (by decide)⟩

/-! ## C8: 2NNN / 00EE and the call stack -/

/-- C8: `00EE` on an empty stack is a StackUnderflow fault and `2NNN` on a
full (depth-12) stack is a StackOverflow fault; otherwise `00EE` pops the
stack into PC and `2NNN` pushes the current (post-fetch) PC and jumps to
NNN. -/
theorem opcode_call_ret_stack (cfg : config_t) (op : Nat) (s : chip8_t) :
    (op / 4096 % 16 = 0x0 → op % 256 = 0xEE → s.stack = [] →
      apply_opcode cfg op s = Except.error RuntimeFault.StackUnderflow) ∧
    (∀ a rest, op / 4096 % 16 = 0x0 → op % 256 = 0xEE → s.stack = a :: rest →
      ∃ s', apply_opcode cfg op s = Except.ok s' ∧
        s'.PC = a ∧ s'.stack = rest ∧ s'.V = s.V ∧ s'.I = s.I) ∧
    (op / 4096 % 16 = 0x2 → s.stack.length = 12 →
      apply_opcode cfg op s = Except.error RuntimeFault.StackOverflow) ∧
    (op / 4096 % 16 = 0x2 → s.stack.length < 12 →
      ∃ s', apply_opcode cfg op s = Except.ok s' ∧
        s'.stack = ((s.PC + 2) % 65536) :: s.stack ∧ s'.PC = op % 4096 ∧ s'.V = s.V) := by
  refine ⟨?_, ?_, ?_, ?_⟩
  · intro htop hNN hstk
    unfold apply_opcode exec decode
    simp [htop, hNN, hstk]
  · intro a rest htop hNN hstk
    unfold apply_opcode exec decode
    simp [htop, hNN, hstk]
  · intro htop hfull
    unfold apply_opcode exec decode
    simp [htop, hfull]
  · intro htop hroom
    unfold apply_opcode exec decode
    simp [htop, Nat.not_le.mpr hroom]

/-- Witness for C8: concrete underflow, pop, overflow, and push. -/
theorem opcode_call_ret_stack_witness :
    (0x00EE / 4096 % 16 = 0x0) ∧ (0x00EE % 256 = 0xEE) ∧ st_base.stack = [] ∧
    (apply_opcode cfg_modern 0x00EE st_base = Except.error RuntimeFault.StackUnderflow) ∧
    (({ st_base with stack := List.replicate 12 0x300 } : chip8_t).stack.length = 12) ∧
    (apply_opcode cfg_modern 0x2345 { st_base with stack := List.replicate 12 0x300 } =
      Except.error RuntimeFault.StackOverflow) ∧
    (∃ s', apply_opcode cfg_modern 0x2345 st_base = Except.ok s' ∧
      s'.stack = ((st_base.PC + 2) % 65536) :: st_base.stack ∧ s'.PC = 0x2345 % 4096 ∧
      s'.V = st_base.V) :=
  ⟨by decide, by decide, by decide,
   (opcode_call_ret_stack cfg_modern 0x00EE st_base).1 (by decide) (by decide) (by decide),
   by decide,
   (opcode_call_ret_stack cfg_modern 0x2345 _).2.2.1 (by decide) (by decide),
   (opcode_call_ret_stack cfg_modern 0x2345 st_base).2.2.2 (by decide) (by decide)⟩

/-! ## C9: the display dirty flag is set unconditionally -/

/-- C9: every `DXYN` sets the dirty flag `draw`, with no condition on any
cell changing, and `00E0` does the same while clearing the display. -/
theorem draw_sets_dirty_flag (cfg : config_t) (op : Nat) (s : chip8_t) :
    (op / 4096 % 16 = 0xD →
      ∃ s', apply_opcode cfg op s = Except.ok s' ∧ s'.draw = true) ∧
    (op / 4096 % 16 = 0x0 → op % 256 = 0xE0 →
      ∃ s', apply_opcode cfg op s = Except.ok s' ∧ s'.draw = true ∧
        s'.display = List.replicate (64 * 32) false) := by
  constructor
  · intro htop
    unfold apply_opcode exec decode
    simp [htop]
  · intro htop hNN
    unfold apply_opcode exec decode
    simp only [htop, hNN, reduceIte]
    exact ⟨_, rfl, rfl, rfl⟩

/-- Witness for C9: a height-0 draw (`0xD000`) on the base state changes no
display cell yet still sets the dirty flag; `0x00E0` likewise. -/
theorem draw_sets_dirty_flag_witness :
    (0xD000 / 4096 % 16 = 0xD) ∧
    (∃ s', apply_opcode cfg_modern 0xD000 st_base = Except.ok s' ∧ s'.draw = true) ∧
    (∃ s', apply_opcode cfg_modern 0x00E0 st_base = Except.ok s' ∧ s'.draw = true ∧
      s'.display = List.replicate (64 * 32) false) ∧
    (Except.map chip8_t.display (apply_opcode cfg_modern 0xD000 st_base) =
      Except.ok st_base.display) :=
  ⟨by decide,
   (draw_sets_dirty_flag cfg_modern 0xD000 st_base).1 (by decide),
   (draw_sets_dirty_flag cfg_modern 0x00E0 st_base).2 (by decide) (by decide),
   by decide⟩

/-! ## C10: 9XYN skips for every N, 5XYN with N ≠ 0 is a no-op -/

/-- C10: `9XYN` performs the skip exactly when VX ≠ VY for *every* low
nibble N (the source never checks it), while `5XYN` with N ≠ 0 leaves the
machine at the plain post-fetch state regardless of VX and VY. -/
theorem opcode_9XYN_skip_5XYN_noop (cfg : config_t) (op : Nat) (s : chip8_t) :
    (op / 4096 % 16 = 0x9 →
      ∃ s', apply_opcode cfg op s = Except.ok s' ∧
        s'.PC = (if vreg s (op / 256 % 16) ≠ vreg s (op / 16 % 16)
                 then (s.PC + 4) % 65536 else (s.PC + 2) % 65536)) ∧
    (op / 4096 % 16 = 0x5 → op % 16 ≠ 0 →
      apply_opcode cfg op s = Except.ok
        { s with inst := decode op, PC := (s.PC + 2) % 65536 }) := by
  constructor
  · intro htop
    unfold apply_opcode exec decode
    simp [htop]
    split_ifs <;> simp
  · intro htop hN
    unfold apply_opcode exec decode
    simp [htop, hN]

/-- Witness for C10: with V0 ≠ V1, `0x9013` (low nibble 3) skips, and
`0x5013` is a no-op. -/
theorem opcode_9XYN_skip_5XYN_noop_witness :
    (0x9013 / 4096 % 16 = 0x9) ∧
    (∃ s', apply_opcode cfg_modern 0x9013 st_shiftL = Except.ok s' ∧
      s'.PC = (if vreg st_shiftL (0x9013 / 256 % 16) ≠ vreg st_shiftL (0x9013 / 16 % 16)
               then (st_shiftL.PC + 4) % 65536 else (st_shiftL.PC + 2) % 65536)) ∧
    (0x5013 / 4096 % 16 = 0x5) ∧ (0x5013 % 16 ≠ 0) ∧
    (apply_opcode cfg_modern 0x5013 st_shiftL = Except.ok
      { st_shiftL with inst := decode 0x5013, PC := (st_shiftL.PC + 2) % 65536 }) :=
  ⟨by decide,
   (opcode_9XYN_skip_5XYN_noop cfg_modern 0x9013 st_shiftL).1 (by decide),
   by decide, by decide,
   (opcode_9XYN_skip_5XYN_noop cfg_modern 0x5013 st_shiftL).2 (by decide) (by decide)⟩

/-! ## C5: FX0A blocking key read -/

/-- C5: the `FX0A` two-phase key wait, one theorem per observable step case.
(a) While no press has been observed (`key = 0xFF`, `any_key_pressed`
clear) and no key is down, PC is moved back to re-decode the same opcode
and no register (V, I, timers) changes.  (b) When the scan first observes a
pressed key `k`, the key index is latched but VX is still not written and
PC still retries.  (c) While the latched key is still held (and on any
retry step with a latched key), nothing is written and PC retries.
(d) Only when the latched key is observed released does VX receive the key
index, the latch reset, and PC advance normally. -/
theorem opcode_FX0A_key_wait (cfg : config_t) (op : Nat) (s : chip8_t)
    (htop : op / 4096 % 16 = 0xF) (hNN : op % 256 = 0x0A) (hPC : s.PC < 65536) :
    (s.key = 0xFF → s.any_key_pressed = false →
      (∀ i, i < 16 → s.keypad.getD i false = false) →
      ∃ s', apply_opcode cfg op s = Except.ok s' ∧ s'.PC = s.PC ∧ s'.V = s.V ∧
        s'.I = s.I ∧ s'.delay_timer = s.delay_timer ∧ s'.sound_timer = s.sound_timer ∧
        s'.key = 0xFF ∧ s'.any_key_pressed = false) ∧
    (∀ k, s.key = 0xFF → s.any_key_pressed = false →
      (List.range 16).find? (fun i => s.keypad.getD i false) = some k →
      ∃ s', apply_opcode cfg op s = Except.ok s' ∧ s'.PC = s.PC ∧ s'.V = s.V ∧
        s'.I = s.I ∧ s'.delay_timer = s.delay_timer ∧ s'.sound_timer = s.sound_timer ∧
        s'.key = k ∧ s'.any_key_pressed = true) ∧
    (s.key ≠ 0xFF → s.keypad.getD s.key false = true →
      ∃ s', apply_opcode cfg op s = Except.ok s' ∧ s'.PC = s.PC ∧ s'.V = s.V ∧
        s'.I = s.I ∧ s'.delay_timer = s.delay_timer ∧ s'.sound_timer = s.sound_timer ∧
        s'.key = s.key ∧ s'.any_key_pressed = s.any_key_pressed) ∧
    (s.key ≠ 0xFF → s.any_key_pressed = true → s.keypad.getD s.key false = false →
      s.key < 16 → s.V.length = 16 →
      ∃ s', apply_opcode cfg op s = Except.ok s' ∧ s'.PC = (s.PC + 2) % 65536 ∧
        vreg s' (op / 256 % 16) = s.key ∧ s'.key = 0xFF ∧ s'.any_key_pressed = false) := by
  refine ⟨?_, ?_, ?_, ?_⟩
  · intro hkey hany hnone
    have hfind : (List.range 16).find? (fun i => s.keypad.getD i false) = none := by
      rw [List.find?_eq_none]
      intro i hi
      simp only [List.mem_range] at hi
      have := hnone i hi
      simpa [List.getD_eq_getElem?_getD] using this
    unfold apply_opcode exec decode pc_back2
    simp only [htop, hNN, hkey, hany, hfind]
    norm_num
    omega
  · intro k hkey hany hfind
    have hpk : s.keypad.getD k false = true := by
      have := List.find?_some hfind
      simpa using this
    simp only [List.getD_eq_getElem?_getD] at hpk
    unfold apply_opcode exec decode pc_back2
    simp only [htop, hNN, hkey, hfind]
    norm_num [hpk]
    omega
  · intro hkey hheld
    simp only [List.getD_eq_getElem?_getD] at hheld
    unfold apply_opcode exec decode pc_back2
    simp only [if_neg hkey, htop, hNN]
    by_cases hany : s.any_key_pressed = false
    · norm_num [hany]
      omega
    · have hany2 : s.any_key_pressed = true := by
        cases h : s.any_key_pressed
        · exact absurd h hany
        · rfl
      norm_num [hany2, hheld]
      omega
  · intro hkey hany hrel hklt hV
    simp only [List.getD_eq_getElem?_getD] at hrel
    unfold apply_opcode exec decode pc_back2
    simp only [if_neg hkey, htop, hNN, hany, hrel]
    norm_num [hrel]
    rw [getD_set_self _ _ _ _ (by rw [hV]; exact Nat.mod_lt _ (by norm_num))]
    omega

/-! ## C7: FX55 / FX65 loop lemmas -/

theorem list_getD_set_self {α : Type} (l : List α) (i : Nat) (a d : α)
    (h : i < l.length) : (l.set i a).getD i d = a := by
  rw [List.getD_eq_getElem?_getD, List.getElem?_set_eq_of_lt _ h]; rfl

theorem list_getD_set_ne {α : Type} (l : List α) {i j : Nat} (a d : α)
    (h : i ≠ j) : (l.set i a).getD j d = l.getD j d := by
  rw [List.getD_eq_getElem?_getD, List.getElem?_set_ne h, ← List.getD_eq_getElem?_getD]

theorem vreg_eq_of_V {s t : chip8_t} (h : s.V = t.V) (i : Nat) : vreg s i = vreg t i := by
  simp [vreg, h]

/-- Closed form of the Legacy `FX55` dump loop: registers and control state
untouched, `I` advanced by the count, RAM holding `V[i+j]` at address
`I+j` for each dumped register and unchanged elsewhere. -/
theorem regs_dump_legacy_spec (cfg : config_t)
    (hm : cfg.current_extension = extension_t.CHIP8) (k : Nat) :
    ∀ (i : Nat) (s : chip8_t), k ≤ 4095 → s.ram.length = 4096 → s.I < 65536 →
      ((regs_dump cfg k i s).V = s.V ∧
       (regs_dump cfg k i s).I = (s.I + k) % 65536 ∧
       (regs_dump cfg k i s).ram.length = 4096 ∧
       (regs_dump cfg k i s).PC = s.PC ∧
       (regs_dump cfg k i s).stack = s.stack) ∧
      (∀ j, j < k → (regs_dump cfg k i s).ram.getD ((s.I + j) % 4096) 0 = vreg s (i + j)) ∧
      (∀ a, (∀ j, j < k → a % 4096 ≠ (s.I + j) % 4096) →
        (regs_dump cfg k i s).ram.getD (a % 4096) 0 = s.ram.getD (a % 4096) 0) := by
  induction k with
  | zero =>
    intro i s hk hram hI
    refine ⟨⟨rfl, by simp [regs_dump, Nat.mod_eq_of_lt hI], hram, rfl, rfl⟩, ?_, ?_⟩
    · intro j hj; exact absurd hj (Nat.not_lt_zero j)
    · intro a _; rfl
  | succ k ih =>
    intro i s hk hram hI
    have hstep : regs_dump cfg (k + 1) i s = regs_dump cfg k (i + 1)
        { mem_write s s.I (vreg s i) with
          I := ((mem_write s s.I (vreg s i)).I + 1) % 65536 } := by
      rw [regs_dump, if_pos hm]
    set s' : chip8_t :=
      { mem_write s s.I (vreg s i) with
        I := ((mem_write s s.I (vreg s i)).I + 1) % 65536 } with hs'
    have hI' : s'.I = (s.I + 1) % 65536 := by simp [hs']
    have hram' : s'.ram = s.ram.set (s.I % 4096) (vreg s i % 256) := by simp [hs', mem_write]
    have hV' : s'.V = s.V := by simp [hs', mem_write]
    have hlen' : s'.ram.length = 4096 := by simp [hram', hram]
    have hIlt' : s'.I < 65536 := by rw [hI']; exact Nat.mod_lt _ (by norm_num)
    obtain ⟨⟨ihV, ihI, ihlen, ihPC, ihstk⟩, ihcell, ihother⟩ :=
      ih (i + 1) s' (by omega) hlen' hIlt'
    rw [hstep]
    refine ⟨⟨by rw [ihV, hV'], ?_, ihlen, by rw [ihPC]; simp [hs', mem_write],
           by rw [ihstk]; simp [hs', mem_write]⟩, ?_, ?_⟩
    · rw [ihI, hI']; omega
    · intro j hj
      match j with
      | 0 =>
        have haddr : ∀ j', j' < k → (s.I + 0) % 4096 ≠ (s'.I + j') % 4096 := by
          intro j' hj'
          rw [hI']
          omega
        have h0 := ihother (s.I + 0) (by simpa using haddr)
        rw [h0, hram']
        have : (s.I + 0) % 4096 = s.I % 4096 := by omega
        rw [this, list_getD_set_self _ _ _ _ (by rw [hram]; exact Nat.mod_lt _ (by norm_num))]
        have h256 := vreg_lt_256 s i
        simp only [Nat.add_zero]
        omega
      | j'' + 1 =>
        have := ihcell j'' (by omega)
        rw [vreg_eq_of_V hV'] at this
        have haddr : (s'.I + j'') % 4096 = (s.I + (j'' + 1)) % 4096 := by
          rw [hI']; omega
        rw [haddr] at this
        rw [this]
        congr 1
        omega
    · intro a ha
      have ha' : ∀ j', j' < k → a % 4096 ≠ (s'.I + j') % 4096 := by
        intro j' hj'
        have := ha (j' + 1) (by omega)
        rw [hI']
        omega
      rw [ihother a ha', hram',
          list_getD_set_ne _ _ _ (fun hcontra => (ha 0 (by omega)) (by omega))]

theorem mem_read_lt_256 (s : chip8_t) (a : Nat) : mem_read s a < 256 :=
  Nat.mod_lt _ (by norm_num)

theorem mem_read_getElem (s : chip8_t) (a : Nat) :
    mem_read s a = (s.ram[a % 4096]?).getD 0 % 256 := by
  simp [mem_read, List.getD_eq_getElem?_getD]

theorem mem_read_eq_of_ram {s t : chip8_t} (h : s.ram = t.ram) (a : Nat) :
    mem_read s a = mem_read t a := by
  simp [mem_read, h]

theorem mem_read_congr_mod (s : chip8_t) {a b : Nat} (h : a % 4096 = b % 4096) :
    mem_read s a = mem_read s b := by
  simp [mem_read, h]

/-- Closed form of the Modern/Extended `FX55` dump loop: `I` untouched, RAM
holding `V[i+j]` at address `I+i+j` and unchanged elsewhere. -/
theorem regs_dump_modern_spec (cfg : config_t)
    (hm : cfg.current_extension ≠ extension_t.CHIP8) (k : Nat) :
    ∀ (i : Nat) (s : chip8_t), i + k ≤ 4095 → s.ram.length = 4096 →
      ((regs_dump cfg k i s).V = s.V ∧
       (regs_dump cfg k i s).I = s.I ∧
       (regs_dump cfg k i s).ram.length = 4096 ∧
       (regs_dump cfg k i s).PC = s.PC ∧
       (regs_dump cfg k i s).stack = s.stack) ∧
      (∀ j, j < k → (regs_dump cfg k i s).ram.getD ((s.I + i + j) % 4096) 0 = vreg s (i + j)) ∧
      (∀ a, (∀ j, j < k → a % 4096 ≠ (s.I + i + j) % 4096) →
        (regs_dump cfg k i s).ram.getD (a % 4096) 0 = s.ram.getD (a % 4096) 0) := by
  induction k with
  | zero =>
    intro i s hk hram
    refine ⟨⟨rfl, rfl, hram, rfl, rfl⟩, ?_, ?_⟩
    · intro j hj; exact absurd hj (Nat.not_lt_zero j)
    · intro a _; rfl
  | succ k ih =>
    intro i s hk hram
    have hstep : regs_dump cfg (k + 1) i s =
        regs_dump cfg k (i + 1) (mem_write s (s.I + i) (vreg s i)) := by
      rw [regs_dump, if_neg hm]
    set s' : chip8_t := mem_write s (s.I + i) (vreg s i) with hs'
    have hram' : s'.ram = s.ram.set ((s.I + i) % 4096) (vreg s i % 256) := by
      simp [hs', mem_write]
    have hV' : s'.V = s.V := by simp [hs', mem_write]
    have hI' : s'.I = s.I := by simp [hs', mem_write]
    have hlen' : s'.ram.length = 4096 := by simp [hram', hram]
    obtain ⟨⟨ihV, ihI, ihlen, ihPC, ihstk⟩, ihcell, ihother⟩ :=
      ih (i + 1) s' (by omega) hlen'
    rw [hstep]
    refine ⟨⟨by rw [ihV, hV'], by rw [ihI, hI'], ihlen,
            by rw [ihPC]; simp [hs', mem_write],
            by rw [ihstk]; simp [hs', mem_write]⟩, ?_, ?_⟩
    · intro j hj
      match j with
      | 0 =>
        have haddr : ∀ j', j' < k → (s.I + i + 0) % 4096 ≠ (s'.I + (i + 1) + j') % 4096 := by
          intro j' hj'
          rw [hI']
          omega
        have h0 := ihother (s.I + i + 0) (by simpa using haddr)
        rw [h0, hram']
        have heq : (s.I + i + 0) % 4096 = (s.I + i) % 4096 := by omega
        rw [heq, list_getD_set_self _ _ _ _ (by rw [hram]; exact Nat.mod_lt _ (by norm_num))]
        have h256 := vreg_lt_256 s i
        simp only [Nat.add_zero]
        omega
      | j'' + 1 =>
        have hc := ihcell j'' (by omega)
        rw [vreg_eq_of_V hV'] at hc
        have haddr : (s'.I + (i + 1) + j'') % 4096 = (s.I + i + (j'' + 1)) % 4096 := by
          rw [hI']; omega
        rw [haddr] at hc
        rw [hc]
        congr 1
        omega
    · intro a ha
      have ha' : ∀ j', j' < k → a % 4096 ≠ (s'.I + (i + 1) + j') % 4096 := by
        intro j' hj'
        have := ha (j' + 1) (by omega)
        rw [hI']
        omega
      rw [ihother a ha', hram',
          list_getD_set_ne _ _ _ (fun hcontra => (ha 0 (by omega)) (by omega))]

/-- Closed form of the Legacy `FX65` load loop: RAM untouched, `I` advanced
by the count, `V[i+j] = ram[I+j]` for each loaded register and registers
outside the range unchanged. -/
theorem regs_load_legacy_spec (cfg : config_t)
    (hm : cfg.current_extension = extension_t.CHIP8) (k : Nat) :
    ∀ (i : Nat) (s : chip8_t), i + k ≤ 16 → s.V.length = 16 → s.I < 65536 →
      ((regs_load cfg k i s).ram = s.ram ∧
       (regs_load cfg k i s).I = (s.I + k) % 65536 ∧
       (regs_load cfg k i s).V.length = 16 ∧
       (regs_load cfg k i s).PC = s.PC ∧
       (regs_load cfg k i s).stack = s.stack) ∧
      (∀ j, j < k → vreg (regs_load cfg k i s) (i + j) = mem_read s (s.I + j)) ∧
      (∀ r, r < i ∨ i + k ≤ r → vreg (regs_load cfg k i s) r = vreg s r) := by
  induction k with
  | zero =>
    intro i s hk hV hI
    refine ⟨⟨rfl, by simp [regs_load, Nat.mod_eq_of_lt hI], hV, rfl, rfl⟩, ?_, ?_⟩
    · intro j hj; exact absurd hj (Nat.not_lt_zero j)
    · intro r _; rfl
  | succ k ih =>
    intro i s hk hV hI
    have hstep : regs_load cfg (k + 1) i s = regs_load cfg k (i + 1)
        { vset s i (mem_read s s.I) with
          I := ((vset s i (mem_read s s.I)).I + 1) % 65536 } := by
      rw [regs_load, if_pos hm]
    set s' : chip8_t :=
      { vset s i (mem_read s s.I) with
        I := ((vset s i (mem_read s s.I)).I + 1) % 65536 } with hs'
    have hI' : s'.I = (s.I + 1) % 65536 := by simp [hs']
    have hram' : s'.ram = s.ram := by simp [hs']
    have hV' : s'.V = s.V.set i (mem_read s s.I % 256) := by simp [hs']
    have hlen' : s'.V.length = 16 := by simp [hV', hV]
    have hIlt' : s'.I < 65536 := by rw [hI']; exact Nat.mod_lt _ (by norm_num)
    obtain ⟨⟨ihram, ihI, ihlen, ihPC, ihstk⟩, ihcell, ihother⟩ :=
      ih (i + 1) s' (by omega) hlen' hIlt'
    rw [hstep]
    refine ⟨⟨by rw [ihram, hram'], by rw [ihI, hI']; omega, ihlen,
            by rw [ihPC]; simp [hs'], by rw [ihstk]; simp [hs']⟩, ?_, ?_⟩
    · intro j hj
      match j with
      | 0 =>
        have h0 := ihother (i + 0) (by omega)
        rw [h0]
        simp only [vreg_def, hV', vset_V, Nat.add_zero]
        rw [list_getD_set_self _ _ _ _ (by rw [hV]; omega)]
        have h256 := mem_read_lt_256 s s.I
        omega
      | j'' + 1 =>
        have hc := ihcell j'' (by omega)
        have hmr : mem_read s' (s'.I + j'') = mem_read s (s.I + (j'' + 1)) := by
          rw [mem_read_eq_of_ram hram']
          apply mem_read_congr_mod
          rw [hI']
          omega
        rw [hmr] at hc
        rw [← hc]
        congr 1
        omega
    · intro r hr
      have h1 := ihother r (by omega)
      rw [h1]
      simp only [vreg_def, hV', vset_V]
      rw [list_getD_set_ne _ _ _ (by omega)]

/-- Closed form of the Modern/Extended `FX65` load loop: RAM and `I`
untouched, `V[i+j] = ram[I+i+j]`, registers outside the range unchanged. -/
theorem regs_load_modern_spec (cfg : config_t)
    (hm : cfg.current_extension ≠ extension_t.CHIP8) (k : Nat) :
    ∀ (i : Nat) (s : chip8_t), i + k ≤ 16 → s.V.length = 16 →
      ((regs_load cfg k i s).ram = s.ram ∧
       (regs_load cfg k i s).I = s.I ∧
       (regs_load cfg k i s).V.length = 16 ∧
       (regs_load cfg k i s).PC = s.PC ∧
       (regs_load cfg k i s).stack = s.stack) ∧
      (∀ j, j < k → vreg (regs_load cfg k i s) (i + j) = mem_read s (s.I + i + j)) ∧
      (∀ r, r < i ∨ i + k ≤ r → vreg (regs_load cfg k i s) r = vreg s r) := by
  induction k with
  | zero =>
    intro i s hk hV
    refine ⟨⟨rfl, rfl, hV, rfl, rfl⟩, ?_, ?_⟩
    · intro j hj; exact absurd hj (Nat.not_lt_zero j)
    · intro r _; rfl
  | succ k ih =>
    intro i s hk hV
    have hstep : regs_load cfg (k + 1) i s =
        regs_load cfg k (i + 1) (vset s i (mem_read s (s.I + i))) := by
      rw [regs_load, if_neg hm]
    set s' : chip8_t := vset s i (mem_read s (s.I + i)) with hs'
    have hram' : s'.ram = s.ram := by simp [hs']
    have hI' : s'.I = s.I := by simp [hs']
    have hV' : s'.V = s.V.set i (mem_read s (s.I + i) % 256) := by simp [hs']
    have hlen' : s'.V.length = 16 := by simp [hV', hV]
    obtain ⟨⟨ihram, ihI, ihlen, ihPC, ihstk⟩, ihcell, ihother⟩ :=
      ih (i + 1) s' (by omega) hlen'
    rw [hstep]
    refine ⟨⟨by rw [ihram, hram'], by rw [ihI, hI'], ihlen,
            by rw [ihPC]; simp [hs'], by rw [ihstk]; simp [hs']⟩, ?_, ?_⟩
    · intro j hj
      match j with
      | 0 =>
        have h0 := ihother (i + 0) (by omega)
        rw [h0]
        simp only [vreg_def, hV', vset_V, Nat.add_zero]
        rw [list_getD_set_self _ _ _ _ (by rw [hV]; omega)]
        have h256 := mem_read_lt_256 s (s.I + i)
        omega
      | j'' + 1 =>
        have hc := ihcell j'' (by omega)
        have hmr : mem_read s' (s'.I + (i + 1) + j'') = mem_read s (s.I + i + (j'' + 1)) := by
          rw [mem_read_eq_of_ram hram']
          apply mem_read_congr_mod
          rw [hI']
          omega
        rw [hmr] at hc
        rw [← hc]
        congr 1
        omega
    · intro r hr
      have h1 := ihother r (by omega)
      rw [h1]
      simp only [vreg_def, hV', vset_V]
      rw [list_getD_set_ne _ _ _ (by omega)]

@[simp] theorem decode_opcode (op : Nat) : (decode op).opcode = op := rfl

@[simp] theorem decode_NNN (op : Nat) : (decode op).NNN = op % 4096 := rfl

@[simp] theorem decode_NN (op : Nat) : (decode op).NN = op % 256 := rfl

@[simp] theorem decode_N (op : Nat) : (decode op).N = op % 16 := rfl

@[simp] theorem decode_X (op : Nat) : (decode op).X = op / 256 % 16 := rfl

@[simp] theorem decode_Y (op : Nat) : (decode op).Y = op / 16 % 16 := rfl

/-- Dispatch lemma: `FX55` runs the register-dump loop. -/
theorem apply_FX55 (cfg : config_t) (op : Nat) (s : chip8_t)
    (htop : op / 4096 % 16 = 0xF) (hNN : op % 256 = 0x55) :
    apply_opcode cfg op s = Except.ok (regs_dump cfg (op / 256 % 16 + 1) 0
      { s with inst := decode op, PC := (s.PC + 2) % 65536 }) := by
  unfold apply_opcode exec
  simp only [decode_opcode, decode_NNN, decode_NN, decode_N, decode_X, decode_Y, htop, hNN]
  norm_num

/-- Dispatch lemma: `FX65` runs the register-load loop. -/
theorem apply_FX65 (cfg : config_t) (op : Nat) (s : chip8_t)
    (htop : op / 4096 % 16 = 0xF) (hNN : op % 256 = 0x65) :
    apply_opcode cfg op s = Except.ok (regs_load cfg (op / 256 % 16 + 1) 0
      { s with inst := decode op, PC := (s.PC + 2) % 65536 }) := by
  unfold apply_opcode exec
  simp only [decode_opcode, decode_NNN, decode_NN, decode_N, decode_X, decode_Y, htop, hNN]
  norm_num

/-- C7: `FX55` then `FX65` (with the original `I` re-established for the
load) restores V0..VX in both Legacy and Modern/Extended modes; each of the
two operations leaves `I` incremented by X+1 in Legacy mode and unchanged
otherwise. -/
theorem opcode_FX55_FX65_roundtrip (cfg : config_t) (op55 op65 X : Nat) (s : chip8_t)
    (h55top : op55 / 4096 % 16 = 0xF) (h55NN : op55 % 256 = 0x55) (h55X : op55 / 256 % 16 = X)
    (h65top : op65 / 4096 % 16 = 0xF) (h65NN : op65 % 256 = 0x65) (h65X : op65 / 256 % 16 = X)
    (hV : s.V.length = 16) (hram : s.ram.length = 4096) (hI : s.I < 65536) :
    ∃ s1, apply_opcode cfg op55 s = Except.ok s1 ∧
      (cfg.current_extension = extension_t.CHIP8 → s1.I = (s.I + (X + 1)) % 65536) ∧
      (cfg.current_extension ≠ extension_t.CHIP8 → s1.I = s.I) ∧
      s1.V = s.V ∧
      ∃ s2, apply_opcode cfg op65 { s1 with I := s.I } = Except.ok s2 ∧
        (∀ j, j ≤ X → vreg s2 j = vreg s j) ∧
        (cfg.current_extension = extension_t.CHIP8 → s2.I = (s.I + (X + 1)) % 65536) ∧
        (cfg.current_extension ≠ extension_t.CHIP8 → s2.I = s.I) := by
  have hX : X < 16 := by rw [← h55X]; exact Nat.mod_lt _ (by norm_num)
  rw [apply_FX55 cfg op55 s h55top h55NN, h55X]
  set t1 : chip8_t := { s with inst := decode op55, PC := (s.PC + 2) % 65536 } with ht1
  have ht1V : t1.V = s.V := rfl
  have ht1ram : t1.ram = s.ram := rfl
  have ht1I : t1.I = s.I := rfl
  by_cases hmode : cfg.current_extension = extension_t.CHIP8
  · obtain ⟨⟨dV, dI, dlen, dPC, dstk⟩, dcell, dother⟩ :=
      regs_dump_legacy_spec cfg hmode (X + 1) 0 t1 (by omega)
        (by rw [ht1ram, hram]) (by rw [ht1I]; exact hI)
    refine ⟨_, rfl, fun _ => by rw [dI, ht1I], fun hc => absurd hmode hc,
            by rw [dV, ht1V], ?_⟩
    rw [apply_FX65 cfg op65 _ h65top h65NN, h65X]
    set u : chip8_t :=
      { { regs_dump cfg (X + 1) 0 t1 with I := s.I } with
        inst := decode op65,
        PC := (({ regs_dump cfg (X + 1) 0 t1 with I := s.I } : chip8_t).PC + 2) % 65536 }
      with hu
    have huV : u.V = s.V := by rw [← ht1V, ← dV]
    have huram : u.ram = (regs_dump cfg (X + 1) 0 t1).ram := rfl
    have huI : u.I = s.I := rfl
    obtain ⟨⟨lram, lI, llen, lPC, lstk⟩, lcell, lother⟩ :=
      regs_load_legacy_spec cfg hmode (X + 1) 0 u (by omega)
        (by rw [huV, hV]) (by rw [huI]; exact hI)
    refine ⟨_, rfl, ?_, fun _ => by rw [lI, huI], fun hc => absurd hmode hc⟩
    intro j hj
    have hl := lcell j (by omega)
    simp only [Nat.zero_add] at hl
    rw [hl]
    show u.ram.getD ((u.I + j) % 4096) 0 % 256 = vreg s j
    rw [huI, huram]
    have hd := dcell j (by omega)
    simp only [Nat.zero_add, ht1I] at hd
    rw [hd, vreg_eq_of_V ht1V]
    have := vreg_lt_256 s j
    omega
  · obtain ⟨⟨dV, dI, dlen, dPC, dstk⟩, dcell, dother⟩ :=
      regs_dump_modern_spec cfg hmode (X + 1) 0 t1 (by omega)
        (by rw [ht1ram, hram])
    refine ⟨_, rfl, fun hc => absurd hc hmode, fun _ => by rw [dI, ht1I],
            by rw [dV, ht1V], ?_⟩
    rw [apply_FX65 cfg op65 _ h65top h65NN, h65X]
    set u : chip8_t :=
      { { regs_dump cfg (X + 1) 0 t1 with I := s.I } with
        inst := decode op65,
        PC := (({ regs_dump cfg (X + 1) 0 t1 with I := s.I } : chip8_t).PC + 2) % 65536 }
      with hu
    have huV : u.V = s.V := by rw [← ht1V, ← dV]
    have huram : u.ram = (regs_dump cfg (X + 1) 0 t1).ram := rfl
    have huI : u.I = s.I := rfl
    obtain ⟨⟨lram, lI, llen, lPC, lstk⟩, lcell, lother⟩ :=
      regs_load_modern_spec cfg hmode (X + 1) 0 u (by omega)
        (by rw [huV, hV])
    refine ⟨_, rfl, ?_, fun hc => absurd hc hmode, fun _ => by rw [lI, huI]⟩
    intro j hj
    have hl := lcell j (by omega)
    simp only [Nat.zero_add, Nat.add_zero] at hl
    rw [hl]
    show u.ram.getD ((u.I + j) % 4096) 0 % 256 = vreg s j
    rw [huI, huram]
    have hd := dcell j (by omega)
    simp only [Nat.zero_add, Nat.add_zero, ht1I] at hd
    rw [hd, vreg_eq_of_V ht1V]
    have := vreg_lt_256 s j
    omega

theorem opcode_FX55_FX65_roundtrip_witness :
    (0xF255 / 4096 % 16 = 0xF) ∧ (0xF255 % 256 = 0x55) ∧ (0xF255 / 256 % 16 = 2) ∧
    (0xF265 / 4096 % 16 = 0xF) ∧ (0xF265 % 256 = 0x65) ∧ (0xF265 / 256 % 16 = 2) ∧
    st_rt.V.length = 16 ∧ st_rt.ram.length = 4096 ∧ st_rt.I < 65536 ∧
    (∃ s1, apply_opcode cfg_legacy 0xF255 st_rt = Except.ok s1 ∧
      (cfg_legacy.current_extension = extension_t.CHIP8 → s1.I = (st_rt.I + (2 + 1)) % 65536) ∧
      (cfg_legacy.current_extension ≠ extension_t.CHIP8 → s1.I = st_rt.I) ∧
      s1.V = st_rt.V ∧
      ∃ s2, apply_opcode cfg_legacy 0xF265 { s1 with I := st_rt.I } = Except.ok s2 ∧
        (∀ j, j ≤ 2 → vreg s2 j = vreg st_rt j) ∧
        (cfg_legacy.current_extension = extension_t.CHIP8 → s2.I = (st_rt.I + (2 + 1)) % 65536) ∧
        (cfg_legacy.current_extension ≠ extension_t.CHIP8 → s2.I = st_rt.I)) :=
  ⟨by decide, by decide, by decide, by decide, by decide, by decide,
   by decide,
   by rw [show st_rt.ram = List.replicate 4096 0 from rfl, List.length_replicate],
   by decide,
   opcode_FX55_FX65_roundtrip cfg_legacy 0xF255 0xF265 2 st_rt
     (by decide) (by decide) (by decide) (by decide) (by decide) (by decide)
     (by decide)
     (by rw [show st_rt.ram = List.replicate 4096 0 from rfl, List.length_replicate])
     (by decide)⟩

/-! ## C6: the per-frame batch and timers -/

theorem run_frame_length_of_no_draw (cfg : config_t) :
    ∀ (n : Nat) (s s' : chip8_t) (ops : List Nat),
      run_frame_insts cfg n s = Except.ok (s', ops) →
      (∀ op ∈ ops, op / 4096 ≠ 0xD) → ops.length = n := by
  intro n
  induction n with
  | zero =>
    intro s s' ops h _
    rw [run_frame_insts] at h
    simp only [Except.ok.injEq, Prod.mk.injEq] at h
    rw [← h.2]
    rfl
  | succ n ih =>
    intro s s' ops h hnd
    rw [run_frame_insts] at h
    cases hE : emulate_instruction cfg s with
    | error e => rw [hE] at h; exact Except.noConfusion h
    | ok s1 =>
      rw [hE] at h
      dsimp only at h
      by_cases hif : cfg.current_extension = extension_t.CHIP8 ∧ s1.inst.opcode / 4096 = 0xD
      · rw [if_pos hif] at h
        simp only [Except.ok.injEq, Prod.mk.injEq] at h
        exact absurd hif.2 (hnd s1.inst.opcode (by rw [← h.2]; simp))
      · rw [if_neg hif] at h
        cases hR : run_frame_insts cfg n s1 with
        | error e => rw [hR] at h; exact Except.noConfusion h
        | ok p =>
          obtain ⟨s'', ops'⟩ := p
          rw [hR] at h
          simp only [Except.ok.injEq, Prod.mk.injEq] at h
          have hlen := ih s1 s'' ops' hR
            (fun op hop => hnd op (by rw [← h.2]; exact List.mem_cons_of_mem _ hop))
          rw [← h.2]
          simp [hlen]
  
theorem run_frame_length_of_modern (cfg : config_t)
    (hm : cfg.current_extension ≠ extension_t.CHIP8) :
    ∀ (n : Nat) (s s' : chip8_t) (ops : List Nat),
      run_frame_insts cfg n s = Except.ok (s', ops) → ops.length = n := by
  intro n
  induction n with
  | zero =>
    intro s s' ops h
    rw [run_frame_insts] at h
    simp only [Except.ok.injEq, Prod.mk.injEq] at h
    rw [← h.2]
    rfl
  | succ n ih =>
    intro s s' ops h
    rw [run_frame_insts] at h
    cases hE : emulate_instruction cfg s with
    | error e => rw [hE] at h; exact Except.noConfusion h
    | ok s1 =>
      rw [hE] at h
      dsimp only at h
      rw [if_neg (fun hc => hm hc.1)] at h
      cases hR : run_frame_insts cfg n s1 with
      | error e => rw [hR] at h; exact Except.noConfusion h
      | ok p =>
        obtain ⟨s'', ops'⟩ := p
        rw [hR] at h
        simp only [Except.ok.injEq, Prod.mk.injEq] at h
        have hlen := ih s1 s'' ops' hR
        rw [← h.2]
        simp [hlen]

theorem run_frame_legacy_draw_last (cfg : config_t)
    (hm : cfg.current_extension = extension_t.CHIP8) :
    ∀ (n : Nat) (s s' : chip8_t) (ops : List Nat),
      run_frame_insts cfg n s = Except.ok (s', ops) →
      ∀ i (h : i < ops.length), (ops.get ⟨i, h⟩) / 4096 = 0xD → i + 1 = ops.length := by
  intro n
  induction n with
  | zero =>
    intro s s' ops h
    rw [run_frame_insts] at h
    simp only [Except.ok.injEq, Prod.mk.injEq] at h
    rw [← h.2]
    intro i hi
    exact absurd hi (by simp)
  | succ n ih =>
    intro s s' ops h
    rw [run_frame_insts] at h
    cases hE : emulate_instruction cfg s with
    | error e => rw [hE] at h; exact Except.noConfusion h
    | ok s1 =>
      rw [hE] at h
      dsimp only at h
      by_cases hif : cfg.current_extension = extension_t.CHIP8 ∧ s1.inst.opcode / 4096 = 0xD
      · rw [if_pos hif] at h
        simp only [Except.ok.injEq, Prod.mk.injEq] at h
        rw [← h.2]
        intro i hi _
        simp only [List.length_singleton] at hi ⊢
        omega
      · rw [if_neg hif] at h
        have hnd : s1.inst.opcode / 4096 ≠ 0xD := fun hc => hif ⟨hm, hc⟩
        cases hR : run_frame_insts cfg n s1 with
        | error e => rw [hR] at h; exact Except.noConfusion h
        | ok p =>
          obtain ⟨s'', ops'⟩ := p
          rw [hR] at h
          simp only [Except.ok.injEq, Prod.mk.injEq] at h
          rw [← h.2]
          intro i hi hdraw
          match i with
          | 0 => exact absurd hdraw hnd
          | i' + 1 =>
            have hi' : i' < ops'.length := by
              simpa using hi
            have := ih s1 s'' ops' hR i' hi' (by simpa using hdraw)
            simp [← this]

/-- C6: a frame batch executes exactly `n` instructions when none is a draw
(and always, in Modern/Extended modes); in Legacy mode every executed draw
is the last instruction of the batch (the batch stops immediately after
it); after the batch each timer is decremented by exactly 1 when positive
and left at 0 otherwise. -/
theorem tick_frame_spec :
    (∀ (cfg : config_t) (n : Nat) (s s' : chip8_t) (ops : List Nat),
      run_frame_insts cfg n s = Except.ok (s', ops) →
      (∀ op ∈ ops, op / 4096 ≠ 0xD) → ops.length = n) ∧
    (∀ (cfg : config_t) (n : Nat) (s s' : chip8_t) (ops : List Nat),
      cfg.current_extension ≠ extension_t.CHIP8 →
      run_frame_insts cfg n s = Except.ok (s', ops) → ops.length = n) ∧
    (∀ (cfg : config_t) (n : Nat) (s s' : chip8_t) (ops : List Nat),
      cfg.current_extension = extension_t.CHIP8 →
      run_frame_insts cfg n s = Except.ok (s', ops) →
      ∀ i (h : i < ops.length), ops.get ⟨i, h⟩ / 4096 = 0xD → i + 1 = ops.length) ∧
    (∀ (cfg : config_t) (n : Nat) (s s' : chip8_t) (ops : List Nat),
      tick_frame cfg n s = Except.ok (s', ops) →
      ∃ s1, run_frame_insts cfg n s = Except.ok (s1, ops) ∧
        (0 < s1.delay_timer → s'.delay_timer = s1.delay_timer - 1) ∧
        (s1.delay_timer = 0 → s'.delay_timer = 0) ∧
        (0 < s1.sound_timer → s'.sound_timer = s1.sound_timer - 1) ∧
        (s1.sound_timer = 0 → s'.sound_timer = 0)) := by
  refine ⟨run_frame_length_of_no_draw, fun cfg n s s' ops hm h =>
    run_frame_length_of_modern cfg hm n s s' ops h,
    fun cfg n s s' ops hm h => run_frame_legacy_draw_last cfg hm n s s' ops h, ?_⟩
  intro cfg n s s' ops h
  unfold tick_frame at h
  cases hR : run_frame_insts cfg n s with
  | error e => rw [hR] at h; exact Except.noConfusion h
  | ok p =>
    obtain ⟨s1, ops'⟩ := p
    rw [hR] at h
    dsimp only at h
    simp only [Except.ok.injEq, Prod.mk.injEq] at h
    obtain ⟨hs', hops⟩ := h
    refine ⟨s1, by rw [hops], ?_, ?_, ?_, ?_⟩ <;>
      intro hd <;> rw [← hs'] <;> simp [update_timers, hd]

theorem tick_frame_spec_witness :
    (run_frame_insts cfg_modern 2 st_tick = Except.ok (st_tick_end, [0x6005, 0x6107])) ∧
    (∀ op ∈ ([0x6005, 0x6107] : List Nat), op / 4096 ≠ 0xD) ∧
    (([0x6005, 0x6107] : List Nat).length = 2) ∧
    (tick_frame cfg_modern 2 st_tick = Except.ok (update_timers st_tick_end, [0x6005, 0x6107])) ∧
    (∃ s1, run_frame_insts cfg_modern 2 st_tick = Except.ok (s1, [0x6005, 0x6107]) ∧
      (0 < s1.delay_timer → (update_timers st_tick_end).delay_timer = s1.delay_timer - 1) ∧
      (s1.delay_timer = 0 → (update_timers st_tick_end).delay_timer = 0) ∧
      (0 < s1.sound_timer → (update_timers st_tick_end).sound_timer = s1.sound_timer - 1) ∧
      (s1.sound_timer = 0 → (update_timers st_tick_end).sound_timer = 0)) :=
  ⟨by decide, by decide,
   tick_frame_spec.1 cfg_modern 2 st_tick st_tick_end _ (by decide) (by decide),
   by decide,
   tick_frame_spec.2.2.2 cfg_modern 2 st_tick _ _ (by decide)⟩

/-! ## C1: DXYN draw characterization -/

theorem getD_set_cell (disp : List Bool) (hlen : disp.length = 2048)
    {x y cx cy : Nat} (b : Bool) (hx : x < 64) (hy : y < 32) (hcx : cx < 64) :
    (disp.set (y * 64 + x) b).getD (cy * 64 + cx) false =
      if cy = y ∧ cx = x then b else disp.getD (cy * 64 + cx) false := by
  by_cases hc : cy = y ∧ cx = x
  · rw [if_pos hc, hc.1, hc.2, list_getD_set_self _ _ _ _ (by rw [hlen]; omega)]
  · rw [if_neg hc, list_getD_set_ne _ _ _ (fun he => hc ⟨by omega, by omega⟩)]

theorem draw_row_zero (sprite x y : Nat) (disp : List Bool) (vf : Bool) :
    draw_row 64 sprite 0 x y disp vf =
      (disp.set (y * 64 + x)
        (xor (disp.getD (y * 64 + x) false) (Nat.testBit sprite 0)),
       vf || (Nat.testBit sprite 0 && disp.getD (y * 64 + x) false)) := by
  simp only [draw_row]
  split <;> rfl

theorem draw_row_succ_stop (sprite x y j : Nat) (disp : List Bool) (vf : Bool)
    (h : x + 1 ≥ 64) :
    draw_row 64 sprite (j + 1) x y disp vf =
      (disp.set (y * 64 + x)
        (xor (disp.getD (y * 64 + x) false) (Nat.testBit sprite (j + 1))),
       vf || (Nat.testBit sprite (j + 1) && disp.getD (y * 64 + x) false)) := by
  simp only [draw_row]
  rw [if_pos h]

theorem draw_row_succ_go (sprite x y j : Nat) (disp : List Bool) (vf : Bool)
    (h : ¬ x + 1 ≥ 64) :
    draw_row 64 sprite (j + 1) x y disp vf =
      draw_row 64 sprite j (x + 1) y
        (disp.set (y * 64 + x)
          (xor (disp.getD (y * 64 + x) false) (Nat.testBit sprite (j + 1))))
        (vf || (Nat.testBit sprite (j + 1) && disp.getD (y * 64 + x) false)) := by
  simp only [draw_row]
  rw [if_neg h]

/-- Closed form of the `DXYN` inner row loop: exactly the columns
`x, x+1, ..., x + min (j+1) (64-x) - 1` of row `y` are XORed with the
sprite bits taken from bit `j` downwards (most significant first), the row
clipping at the right edge; the collision flag accumulates exactly the
overlaps of 1-bits with already-lit cells in that column range. -/
theorem draw_row_spec (sprite y : Nat) :
    ∀ (j x : Nat) (disp : List Bool) (vf : Bool), x < 64 → disp.length = 2048 →
      (draw_row 64 sprite j x y disp vf).1.length = 2048 ∧
      (∀ cx cy, cx < 64 → cy < 32 →
        (draw_row 64 sprite j x y disp vf).1.getD (cy * 64 + cx) false =
          (if cy = y ∧ x ≤ cx ∧ cx < x + min (j + 1) (64 - x)
           then xor (disp.getD (cy * 64 + cx) false) (Nat.testBit sprite (j - (cx - x)))
           else disp.getD (cy * 64 + cx) false)) ∧
      (draw_row 64 sprite j x y disp vf).2 =
        (vf || (List.range (min (j + 1) (64 - x))).any
          (fun c => Nat.testBit sprite (j - c) && disp.getD (y * 64 + (x + c)) false)) := by
  intro j
  induction j with
  | zero =>
    intro x disp vf hx hlen
    rw [draw_row_zero]
    have hmin : min (0 + 1) (64 - x) = 1 := by omega
    refine ⟨by simp [hlen], ?_, ?_⟩
    · intro cx cy hcx hcy
      by_cases hyx : y < 32
      · rw [getD_set_cell disp hlen _ hx hyx hcx]
        by_cases hc : cy = y ∧ cx = x
        · rw [if_pos hc, if_pos (by omega)]
          rw [hc.1, hc.2]
          simp
        · rw [if_neg hc, if_neg (by omega)]
      · -- y out of range cannot occur in use; handle uniformly
        rw [hmin]
        by_cases hc : cy = y ∧ cx = x
        · exact absurd (hc.1 ▸ hcy) hyx
        · rw [if_neg (by omega),
              list_getD_set_ne _ _ _ (fun he => hc ⟨by omega, by omega⟩)]
    · rw [hmin, show List.range 1 = [0] from rfl]
      simp
  | succ j ih =>
    intro x disp vf hx hlen
    by_cases hstop : x + 1 ≥ 64
    · rw [draw_row_succ_stop _ _ _ _ _ _ hstop]
      have hmin : min (j + 1 + 1) (64 - x) = 1 := by omega
      refine ⟨by simp [hlen], ?_, ?_⟩
      · intro cx cy hcx hcy
        by_cases hyx : y < 32
        · rw [getD_set_cell disp hlen _ hx hyx hcx]
          by_cases hc : cy = y ∧ cx = x
          · rw [if_pos hc, if_pos (by omega)]
            rw [hc.1, hc.2]
            simp
          · rw [if_neg hc, if_neg (by omega)]
        · rw [hmin]
          by_cases hc : cy = y ∧ cx = x
          · exact absurd (hc.1 ▸ hcy) hyx
          · rw [if_neg (by omega),
                list_getD_set_ne _ _ _ (fun he => hc ⟨by omega, by omega⟩)]
      · rw [hmin, show List.range 1 = [0] from rfl]
        simp
    · rw [draw_row_succ_go _ _ _ _ _ _ hstop]
      have hx1 : x + 1 < 64 := by omega
      set disp1 := disp.set (y * 64 + x)
        (xor (disp.getD (y * 64 + x) false) (Nat.testBit sprite (j + 1))) with hdisp1
      have hlen1 : disp1.length = 2048 := by simp [hdisp1, hlen]
      obtain ⟨ihlen, ihcell, ihvf⟩ := ih (x + 1) disp1
        (vf || (Nat.testBit sprite (j + 1) && disp.getD (y * 64 + x) false)) hx1 hlen1
      have hminsum : min (j + 1 + 1) (64 - x) = 1 + min (j + 1) (64 - (x + 1)) := by omega
      refine ⟨ihlen, ?_, ?_⟩
      · intro cx cy hcx hcy
        rw [ihcell cx cy hcx hcy]
        by_cases hc1 : cy = y ∧ x + 1 ≤ cx ∧ cx < x + 1 + min (j + 1) (64 - (x + 1))
        · rw [if_pos hc1, if_pos (by omega)]
          have hne : ¬(cy = y ∧ cx = x) := by omega
          rw [hdisp1, list_getD_set_ne _ _ _ (fun he => hne ⟨by omega, by omega⟩)]
          rw [show j - (cx - (x + 1)) = j + 1 - (cx - x) from by omega]
        · rw [if_neg hc1]
          by_cases hc0 : cy = y ∧ cx = x
          · rw [if_pos (by omega)]
            have hylt : y < 32 := hc0.1 ▸ hcy
            rw [hc0.1, hc0.2, hdisp1,
                list_getD_set_self _ _ _ _ (by rw [hlen]; omega),
                show j + 1 - (x - x) = j + 1 from by omega]
          · rw [if_neg (by omega)]
            rw [hdisp1, list_getD_set_ne _ _ _ (fun he => hc0 ⟨by omega, by omega⟩)]
      · rw [ihvf, hminsum]
        rw [show 1 + min (j + 1) (64 - (x + 1)) = min (j + 1) (64 - (x + 1)) + 1 from by omega]
        rw [List.range_succ_eq_map]
        simp only [List.any_cons, List.any_map]
        rw [show Nat.testBit sprite (j + 1 - 0) = Nat.testBit sprite (j + 1) from by
              rw [Nat.sub_zero],
            show y * 64 + (x + 0) = y * 64 + x from by omega]
        have hfun : ((fun c => Nat.testBit sprite (j + 1 - c) &&
              disp.getD (y * 64 + (x + c)) false) ∘ (fun n => n + 1)) =
            (fun c => Nat.testBit sprite (j - c) && disp1.getD (y * 64 + (x + 1 + c)) false) := by
          funext c
          simp only [Function.comp]
          rw [show j + 1 - (c + 1) = j - c from by omega,
              show y * 64 + (x + (c + 1)) = y * 64 + (x + 1 + c) from by omega]
          rw [hdisp1, list_getD_set_ne _ _ _ (by omega)]
        rw [← hfun]
        rw [Bool.or_assoc]

theorem list_any_congr {α : Type} {l : List α} {p q : α → Bool}
    (h : ∀ a ∈ l, p a = q a) : l.any p = l.any q := by
  induction l with
  | nil => rfl
  | cons a l ih =>
    simp only [List.any_cons, h a (List.mem_cons_self a l),
      ih (fun b hb => h b (List.mem_cons_of_mem a hb))]

theorem draw_rows_succ_stop (ram : List Nat) (I n i y x0 : Nat) (disp : List Bool)
    (vf : Bool) (h : y + 1 ≥ 32) :
    draw_rows 64 32 ram I (n + 1) i y x0 disp vf =
      draw_row 64 (ram.getD ((I + i) % 4096) 0 % 256) 7 x0 y disp vf := by
  simp only [draw_rows]
  rw [if_pos h]

theorem draw_rows_succ_go (ram : List Nat) (I n i y x0 : Nat) (disp : List Bool)
    (vf : Bool) (h : ¬ y + 1 ≥ 32) :
    draw_rows 64 32 ram I (n + 1) i y x0 disp vf =
      draw_rows 64 32 ram I n (i + 1) (y + 1) x0
        (draw_row 64 (ram.getD ((I + i) % 4096) 0 % 256) 7 x0 y disp vf).1
        (draw_row 64 (ram.getD ((I + i) % 4096) 0 % 256) 7 x0 y disp vf).2 := by
  simp only [draw_rows]
  rw [if_neg h]

/-- Closed form of the `DXYN` outer row loop: exactly the rows
`y, ..., y + min n (32-y) - 1` are drawn (clipping at the bottom edge), row
`y + r` taking its sprite byte from `ram[I + i + r]`; each drawn cell is
the XOR of the old cell with the sprite bit, and the final collision flag
accumulates exactly the overlaps of sprite 1-bits with already-lit cells
over the drawn region. -/
theorem draw_rows_spec (ram : List Nat) (I : Nat) (x0 : Nat) (hx0 : x0 < 64) :
    ∀ (n : Nat) (i y : Nat) (disp : List Bool) (vf : Bool), y < 32 → disp.length = 2048 →
      (draw_rows 64 32 ram I n i y x0 disp vf).1.length = 2048 ∧
      (∀ cx cy, cx < 64 → cy < 32 →
        (draw_rows 64 32 ram I n i y x0 disp vf).1.getD (cy * 64 + cx) false =
          (if y ≤ cy ∧ cy < y + min n (32 - y) ∧ x0 ≤ cx ∧ cx < x0 + min 8 (64 - x0)
           then xor (disp.getD (cy * 64 + cx) false)
                (Nat.testBit (ram.getD ((I + (i + (cy - y))) % 4096) 0 % 256) (7 - (cx - x0)))
           else disp.getD (cy * 64 + cx) false)) ∧
      (draw_rows 64 32 ram I n i y x0 disp vf).2 =
        (vf || (List.range (min n (32 - y))).any (fun r =>
          (List.range (min 8 (64 - x0))).any (fun c =>
            Nat.testBit (ram.getD ((I + (i + r)) % 4096) 0 % 256) (7 - c) &&
            disp.getD ((y + r) * 64 + (x0 + c)) false))) := by
  intro n
  induction n with
  | zero =>
    intro i y disp vf hy hlen
    refine ⟨hlen, ?_, ?_⟩
    · intro cx cy hcx hcy
      rw [if_neg (by omega)]
      rfl
    · rw [show min 0 (32 - y) = 0 from by omega]
      simp [draw_rows]
  | succ n ih =>
    intro i y disp vf hy hlen
    obtain ⟨rlen, rcell, rvf⟩ :=
      draw_row_spec (ram.getD ((I + i) % 4096) 0 % 256) y 7 x0 disp vf hx0 hlen
    have hmin8 : min (7 + 1) (64 - x0) = min 8 (64 - x0) := by norm_num
    by_cases hstop : y + 1 ≥ 32
    · rw [draw_rows_succ_stop _ _ _ _ _ _ _ _ hstop]
      have hminr : min (n + 1) (32 - y) = 1 := by omega
      refine ⟨rlen, ?_, ?_⟩
      · intro cx cy hcx hcy
        rw [rcell cx cy hcx hcy, hminr]
        by_cases hc : cy = y ∧ x0 ≤ cx ∧ cx < x0 + min (7 + 1) (64 - x0)
        · rw [if_pos hc, if_pos (by omega)]
          rw [hc.1]
          rw [show y - y = 0 from by omega, Nat.add_zero]
        · rw [if_neg hc, if_neg (by omega)]
      · rw [rvf, hminr, show List.range 1 = [0] from rfl]
        simp only [List.any_cons, List.any_nil, Bool.or_false, Nat.add_zero, hmin8]
    · rw [draw_rows_succ_go _ _ _ _ _ _ _ _ hstop]
      have hy1 : y + 1 < 32 := by omega
      obtain ⟨ihlen, ihcell, ihvf⟩ :=
        ih (i + 1) (y + 1)
          (draw_row 64 (ram.getD ((I + i) % 4096) 0 % 256) 7 x0 y disp vf).1
          (draw_row 64 (ram.getD ((I + i) % 4096) 0 % 256) 7 x0 y disp vf).2 hy1 rlen
      have hminsum : min (n + 1) (32 - y) = 1 + min n (32 - (y + 1)) := by omega
      refine ⟨ihlen, ?_, ?_⟩
      · intro cx cy hcx hcy
        rw [ihcell cx cy hcx hcy]
        by_cases hc1 : y + 1 ≤ cy ∧ cy < y + 1 + min n (32 - (y + 1)) ∧
            x0 ≤ cx ∧ cx < x0 + min 8 (64 - x0)
        · rw [if_pos hc1, rcell cx cy hcx hcy,
              if_neg (by omega), if_pos (by omega)]
          rw [show I + (i + 1 + (cy - (y + 1))) = I + (i + (cy - y)) from by omega]
        · rw [if_neg hc1, rcell cx cy hcx hcy]
          by_cases hc0 : cy = y ∧ x0 ≤ cx ∧ cx < x0 + min (7 + 1) (64 - x0)
          · rw [if_pos hc0, if_pos (by omega)]
            rw [hc0.1, show y - y = 0 from by omega, Nat.add_zero]
          · rw [if_neg hc0, if_neg (by omega)]
      · rw [ihvf, rvf, hminsum,
            show 1 + min n (32 - (y + 1)) = min n (32 - (y + 1)) + 1 from by omega,
            List.range_succ_eq_map]
        simp only [List.any_cons, List.any_map, Nat.add_zero, Bool.or_assoc, hmin8]
        congr 2
        apply list_any_congr
        intro r hr
        simp only [List.mem_range] at hr
        simp only [Function.comp]
        apply list_any_congr
        intro c hc
        simp only [List.mem_range] at hc
        rw [rcell (x0 + c) (y + 1 + r) (by omega) (by omega), if_neg (by omega)]
        rw [show I + (i + 1 + r) = I + (i + (r + 1)) from by omega,
            show y + 1 + r = y + (r + 1) from by omega]

/-- C1: full characterization of the `DXYN` sprite draw.  The start
coordinates are VX mod width and VY mod height (wrapping applied only
there); exactly the cells inside the clipped sprite rectangle are XORed
with the sprite bits, row `r` read from `Memory[I+r]` with bits taken most
significant first; rows clip at the right edge, the sprite clips at the
bottom edge; VF ends 0 or 1, it is 1 exactly when some sprite 1-bit lands
on an already-lit cell of the clipped region. -/
theorem opcode_DXYN_draw (cfg : config_t) (op : Nat) (s : chip8_t)
    (htop : op / 4096 % 16 = 0xD) (hw : cfg.window_width = 64)
    (hh : cfg.window_height = 32) (hV : s.V.length = 16)
    (hdisp : s.display.length = 2048) :
    ∃ s', apply_opcode cfg op s = Except.ok s' ∧ s'.draw = true ∧
      (∀ cx cy, cx < 64 → cy < 32 →
        s'.display.getD (cy * 64 + cx) false =
          (if vreg s (op / 16 % 16) % 32 ≤ cy ∧
              cy < vreg s (op / 16 % 16) % 32 + min (op % 16) (32 - vreg s (op / 16 % 16) % 32) ∧
              vreg s (op / 256 % 16) % 64 ≤ cx ∧
              cx < vreg s (op / 256 % 16) % 64 + min 8 (64 - vreg s (op / 256 % 16) % 64)
           then xor (s.display.getD (cy * 64 + cx) false)
                (Nat.testBit (mem_read s (s.I + (cy - vreg s (op / 16 % 16) % 32)))
                  (7 - (cx - vreg s (op / 256 % 16) % 64)))
           else s.display.getD (cy * 64 + cx) false)) ∧
      (vreg s' 0xF =
        if ((List.range (min (op % 16) (32 - vreg s (op / 16 % 16) % 32))).any (fun r =>
             (List.range (min 8 (64 - vreg s (op / 256 % 16) % 64))).any (fun c =>
               Nat.testBit (mem_read s (s.I + r)) (7 - c) &&
               s.display.getD ((vreg s (op / 16 % 16) % 32 + r) * 64 +
                 (vreg s (op / 256 % 16) % 64 + c)) false))) = true
        then 1 else 0) := by
  have hx0 : vreg s (op / 256 % 16) % 64 < 64 := Nat.mod_lt _ (by norm_num)
  have hy0 : vreg s (op / 16 % 16) % 32 < 32 := Nat.mod_lt _ (by norm_num)
  obtain ⟨rwlen, rwcell, rwvf⟩ :=
    draw_rows_spec s.ram s.I (vreg s (op / 256 % 16) % 64) hx0 (op % 16) 0
      (vreg s (op / 16 % 16) % 32) s.display false hy0 hdisp
  unfold apply_opcode exec
  simp only [decode_opcode, decode_NNN, decode_NN, decode_N, decode_X, decode_Y, htop, hw, hh]
  norm_num
  simp only [vreg_def, List.getD_eq_getElem?_getD] at rwcell rwvf
  norm_num at rwcell rwvf
  constructor
  · intro cx cy hcx hcy
    rw [rwcell cx cy hcx hcy]
    simp only [mem_read_getElem]
  · rw [getD_set_self _ _ _ _ (by rw [hV]; norm_num), rwvf]
    simp only [Bool.false_or, mem_read_getElem, vreg_def, List.getD_eq_getElem?_getD,
      Nat.mod_mod_of_dvd _ (show (32 : Nat) ∣ 256 from by norm_num),
      Nat.mod_mod_of_dvd _ (show (64 : Nat) ∣ 256 from by norm_num)]
    split_ifs <;> rfl

theorem opcode_DXYN_draw_witness :
    (0xD013 / 4096 % 16 = 0xD) ∧ (cfg_modern.window_width = 64) ∧
    (cfg_modern.window_height = 32) ∧ st_draw.V.length = 16 ∧
    st_draw.display.length = 2048 ∧
    (∃ s', apply_opcode cfg_modern 0xD013 st_draw = Except.ok s' ∧ s'.draw = true ∧
      (∀ cx cy, cx < 64 → cy < 32 →
        s'.display.getD (cy * 64 + cx) false =
          (if vreg st_draw (0xD013 / 16 % 16) % 32 ≤ cy ∧
              cy < vreg st_draw (0xD013 / 16 % 16) % 32 +
                min (0xD013 % 16) (32 - vreg st_draw (0xD013 / 16 % 16) % 32) ∧
              vreg st_draw (0xD013 / 256 % 16) % 64 ≤ cx ∧
              cx < vreg st_draw (0xD013 / 256 % 16) % 64 +
                min 8 (64 - vreg st_draw (0xD013 / 256 % 16) % 64)
           then xor (st_draw.display.getD (cy * 64 + cx) false)
                (Nat.testBit (mem_read st_draw (st_draw.I + (cy - vreg st_draw (0xD013 / 16 % 16) % 32)))
                  (7 - (cx - vreg st_draw (0xD013 / 256 % 16) % 64)))
           else st_draw.display.getD (cy * 64 + cx) false)) ∧
      (vreg s' 0xF =
        if ((List.range (min (0xD013 % 16) (32 - vreg st_draw (0xD013 / 16 % 16) % 32))).any (fun r =>
             (List.range (min 8 (64 - vreg st_draw (0xD013 / 256 % 16) % 64))).any (fun c =>
               Nat.testBit (mem_read st_draw (st_draw.I + r)) (7 - c) &&
               st_draw.display.getD ((vreg st_draw (0xD013 / 16 % 16) % 32 + r) * 64 +
                 (vreg st_draw (0xD013 / 256 % 16) % 64 + c)) false))) = true
        then 1 else 0)) :=
  ⟨by decide, by decide, by decide, by decide,
   by rw [show st_draw.display = List.replicate 2048 false from rfl, List.length_replicate],
   opcode_DXYN_draw cfg_modern 0xD013 st_draw (by decide) (by decide) (by decide) (by decide)
     (by rw [show st_draw.display = List.replicate 2048 false from rfl, List.length_replicate])⟩

theorem opcode_FX0A_key_wait_witness :
    (0xF30A / 4096 % 16 = 0xF) ∧ (0xF30A % 256 = 0x0A) ∧ st_base.PC < 65536 ∧
    st_keyrel.PC < 65536 ∧
    (∃ s', apply_opcode cfg_modern 0xF30A st_base = Except.ok s' ∧ s'.PC = st_base.PC ∧
      s'.V = st_base.V ∧ s'.I = st_base.I ∧ s'.delay_timer = st_base.delay_timer ∧
      s'.sound_timer = st_base.sound_timer ∧ s'.key = 0xFF ∧ s'.any_key_pressed = false) ∧
    (∃ s', apply_opcode cfg_modern 0xF30A st_keyrel = Except.ok s' ∧
      s'.PC = (st_keyrel.PC + 2) % 65536 ∧
      vreg s' (0xF30A / 256 % 16) = st_keyrel.key ∧ s'.key = 0xFF ∧
      s'.any_key_pressed = false) :=
  ⟨by decide, by decide, by decide, by decide,
   (opcode_FX0A_key_wait cfg_modern 0xF30A st_base (by decide) (by decide) (by decide)).1
     (by decide) (by decide)
     (by
       intro i hi
       rw [show st_base.keypad = List.replicate 16 false from rfl,
           List.getD_eq_getElem?_getD, List.getElem?_replicate]
       split <;> rfl),
   (opcode_FX0A_key_wait cfg_modern 0xF30A st_keyrel (by decide) (by decide) (by decide)).2.2.2
     (by decide) (by decide) (by decide) (by decide) (by decide)⟩
